import Mathlib

/-!
Verification development for the JobSeeker scrape/score pipeline.

The definitions below are a shallow embedding of the TypeScript sources:
the shared title/location filters (src/scrapers/filters.ts), the SQLite
persistence layer (src/db/index.ts), the scrape orchestrator
(src/scrapers/runner.ts), the JobStash adapter (src/scrapers/jobstash.ts)
and the scoring pipeline (src/scorer/scorer.ts).  JavaScript regular
expressions are embedded by a small backtracking matcher over the exact
pattern subset the filters use (literals, the dot wildcard, an optional
literal, a whitespace star, and word boundaries); case-insensitive tests
lowercase the subject first, mirroring the /i flag for the ASCII text the
filters target.  Database tables are embedded as Lean lists threaded in
insertion order, which is the order better-sqlite3 scans them for the
queries the code issues.
-/

namespace JobSeeker

/-- JavaScript RegExp word character class: letters, digits, underscore. -/
def isWordChar (c : Char) : Bool :=
  ('a' ≤ c && c ≤ 'z') || ('A' ≤ c && c ≤ 'Z') || ('0' ≤ c && c ≤ '9') || c == '_'

/-- One atom of the regular-expression subset used by the filter patterns. -/
inductive Pat where
  | lit (c : Char)
  | dot
  | opt (c : Char)
  | wsStar
  | wb
deriving Repr, DecidableEq

/-- Whether an optional previous character is a word character. -/
def isWordOpt : Option Char → Bool
  | none => false
  | some c => isWordChar c

/-- JavaScript word-boundary test between the previous character and the
rest of the input. -/
def atBoundary (prev : Option Char) (s : List Char) : Bool :=
  isWordOpt prev != isWordOpt s.head?

/-- Fuelled backtracking matcher: does the pattern list match a prefix of
`s`, where `prev` is the character just before the current position?
Every recursive call strictly decreases the combined length of the
pattern and the input, so any fuel above that sum computes the match;
the fuel only makes the recursion structural. -/
def matchF : Nat → List Pat → Option Char → List Char → Bool
  | 0, _, _, _ => false
  | _ + 1, [], _, _ => true
  | fuel + 1, .lit c :: ps, _, d :: rest => d == c && matchF fuel ps (some d) rest
  | _ + 1, .lit _ :: _, _, [] => false
  | fuel + 1, .dot :: ps, _, d :: rest => matchF fuel ps (some d) rest
  | _ + 1, .dot :: _, _, [] => false
  | fuel + 1, .opt c :: ps, prev, s =>
      (match s with
       | d :: rest => d == c && matchF fuel ps (some d) rest
       | [] => false)
      || matchF fuel ps prev s
  | fuel + 1, .wsStar :: ps, prev, s =>
      matchF fuel ps prev s
      || (match s with
          | d :: rest => d.isWhitespace && matchF fuel (.wsStar :: ps) (some d) rest
          | [] => false)
  | fuel + 1, .wb :: ps, prev, s => atBoundary prev s && matchF fuel ps prev s

/-- Any two sufficient fuel values compute the same match result. -/
theorem matchF_congr : ∀ (f g : Nat) (ps : List Pat) (prev : Option Char) (s : List Char),
    ps.length + s.length < f → ps.length + s.length < g →
    matchF f ps prev s = matchF g ps prev s := by
  intro f
  induction f using Nat.strong_induction_on with
  | _ f ih =>
    intro g ps prev s hf hg
    match f, g with
    | f' + 1, g' + 1 =>
      match ps, s with
      | [], _ => rfl
      | .lit c :: ps', d :: rest =>
          simp only [matchF, List.length_cons] at hf hg ⊢
          rw [ih f' (Nat.lt_succ_self _) g' ps' (some d) rest (by omega) (by omega)]
      | .lit _ :: _, [] => rfl
      | .dot :: ps', d :: rest =>
          simp only [matchF, List.length_cons] at hf hg ⊢
          exact ih f' (Nat.lt_succ_self _) g' ps' (some d) rest (by omega) (by omega)
      | .dot :: _, [] => rfl
      | .opt c :: ps', [] =>
          simp only [matchF, List.length_cons, List.length_nil] at hf hg ⊢
          rw [ih f' (Nat.lt_succ_self _) g' ps' prev [] (by simp; omega) (by simp; omega)]
      | .opt c :: ps', d :: rest =>
          simp only [matchF, List.length_cons] at hf hg ⊢
          rw [ih f' (Nat.lt_succ_self _) g' ps' (some d) rest (by omega) (by omega),
              ih f' (Nat.lt_succ_self _) g' ps' prev (d :: rest)
                (by simp only [List.length_cons]; omega)
                (by simp only [List.length_cons]; omega)]
      | .wsStar :: ps', [] =>
          simp only [matchF, List.length_cons, List.length_nil] at hf hg ⊢
          rw [ih f' (Nat.lt_succ_self _) g' ps' prev [] (by simp; omega) (by simp; omega)]
      | .wsStar :: ps', d :: rest =>
          simp only [matchF, List.length_cons] at hf hg ⊢
          rw [ih f' (Nat.lt_succ_self _) g' ps' prev (d :: rest)
                (by simp only [List.length_cons]; omega)
                (by simp only [List.length_cons]; omega),
              ih f' (Nat.lt_succ_self _) g' (.wsStar :: ps') (some d) rest
                (by simp only [List.length_cons]; omega)
                (by simp only [List.length_cons]; omega)]
      | .wb :: ps', s =>
          simp only [matchF, List.length_cons] at hf hg ⊢
          rw [ih f' (Nat.lt_succ_self _) g' ps' prev s (by omega) (by omega)]

/-- The matcher with just enough fuel: the function the filters use. -/
def matchP (ps : List Pat) (prev : Option Char) (s : List Char) : Bool :=
  matchF (ps.length + s.length + 1) ps prev s

theorem matchP_eq_matchF (f : Nat) (ps : List Pat) (prev : Option Char) (s : List Char)
    (h : ps.length + s.length < f) : matchP ps prev s = matchF f ps prev s :=
  matchF_congr _ f ps prev s (Nat.lt_succ_self _) h

theorem matchP_nil (prev : Option Char) (s : List Char) : matchP [] prev s = true := rfl

theorem matchP_lit_cons (c : Char) (ps : List Pat) (prev : Option Char) (d : Char)
    (rest : List Char) :
    matchP (.lit c :: ps) prev (d :: rest) = (d == c && matchP ps (some d) rest) := by
  have h2 : matchF ((Pat.lit c :: ps).length + (d :: rest).length) ps (some d) rest
      = matchP ps (some d) rest :=
    (matchP_eq_matchF _ _ _ _ (by simp only [List.length_cons]; omega)).symm
  show matchF _ _ _ _ = _
  rw [matchF, h2]

theorem matchP_lit_nil (c : Char) (ps : List Pat) (prev : Option Char) :
    matchP (.lit c :: ps) prev [] = false := rfl

theorem matchP_dot_cons (ps : List Pat) (prev : Option Char) (d : Char) (rest : List Char) :
    matchP (.dot :: ps) prev (d :: rest) = matchP ps (some d) rest := by
  have h2 : matchF ((Pat.dot :: ps).length + (d :: rest).length) ps (some d) rest
      = matchP ps (some d) rest :=
    (matchP_eq_matchF _ _ _ _ (by simp only [List.length_cons]; omega)).symm
  show matchF _ _ _ _ = _
  rw [matchF, h2]

theorem matchP_dot_nil (ps : List Pat) (prev : Option Char) :
    matchP (.dot :: ps) prev [] = false := rfl

theorem matchP_opt_cons (c : Char) (ps : List Pat) (prev : Option Char) (d : Char)
    (rest : List Char) :
    matchP (.opt c :: ps) prev (d :: rest)
      = ((d == c && matchP ps (some d) rest) || matchP ps prev (d :: rest)) := by
  have h2 : matchF ((Pat.opt c :: ps).length + (d :: rest).length) ps (some d) rest
      = matchP ps (some d) rest :=
    (matchP_eq_matchF _ _ _ _ (by simp only [List.length_cons]; omega)).symm
  have h3 : matchF ((Pat.opt c :: ps).length + (d :: rest).length) ps prev (d :: rest)
      = matchP ps prev (d :: rest) :=
    (matchP_eq_matchF _ _ _ _ (by simp only [List.length_cons]; omega)).symm
  show matchF _ _ _ _ = _
  rw [matchF, h2, h3]

theorem matchP_opt_nil (c : Char) (ps : List Pat) (prev : Option Char) :
    matchP (.opt c :: ps) prev [] = matchP ps prev [] := by
  have h2 : matchF ((Pat.opt c :: ps).length + ([] : List Char).length) ps prev []
      = matchP ps prev [] :=
    (matchP_eq_matchF _ _ _ _ (by simp only [List.length_cons, List.length_nil]; omega)).symm
  show matchF _ _ _ _ = _
  rw [matchF, h2]
  exact Bool.false_or _

theorem matchP_wsStar_cons (ps : List Pat) (prev : Option Char) (d : Char) (rest : List Char) :
    matchP (.wsStar :: ps) prev (d :: rest)
      = (matchP ps prev (d :: rest)
          || (d.isWhitespace && matchP (.wsStar :: ps) (some d) rest)) := by
  have h2 : matchF ((Pat.wsStar :: ps).length + (d :: rest).length) ps prev (d :: rest)
      = matchP ps prev (d :: rest) :=
    (matchP_eq_matchF _ _ _ _ (by simp only [List.length_cons]; omega)).symm
  have h3 : matchF ((Pat.wsStar :: ps).length + (d :: rest).length) (.wsStar :: ps)
      (some d) rest = matchP (.wsStar :: ps) (some d) rest :=
    (matchP_eq_matchF _ _ _ _ (by simp only [List.length_cons]; omega)).symm
  show matchF _ _ _ _ = _
  rw [matchF, h2, h3]

theorem matchP_wsStar_nil (ps : List Pat) (prev : Option Char) :
    matchP (.wsStar :: ps) prev [] = matchP ps prev [] := by
  have h2 : matchF ((Pat.wsStar :: ps).length + ([] : List Char).length) ps prev []
      = matchP ps prev [] :=
    (matchP_eq_matchF _ _ _ _ (by simp only [List.length_cons, List.length_nil]; omega)).symm
  show matchF _ _ _ _ = _
  rw [matchF, h2]
  exact Bool.or_false _

theorem matchP_wb (ps : List Pat) (prev : Option Char) (s : List Char) :
    matchP (.wb :: ps) prev s = (atBoundary prev s && matchP ps prev s) := by
  have h2 : matchF ((Pat.wb :: ps).length + s.length) ps prev s = matchP ps prev s :=
    (matchP_eq_matchF _ _ _ _ (by simp only [List.length_cons]; omega)).symm
  show matchF _ _ _ _ = _
  rw [matchF, h2]

/-- Scan every start position of the input for a match of the pattern. -/
def searchFrom (p : List Pat) : Option Char → List Char → Bool
  | prev, [] => matchP p prev []
  | prev, c :: rest => matchP p prev (c :: rest) || searchFrom p (some c) rest

/-- RegExp.test on a character list: search from the start of the input. -/
def regexSearch (p : List Pat) (s : List Char) : Bool :=
  searchFrom p none s

/-- Test of an alternation of patterns (the filter regexes are a single
group of alternatives wrapped in word boundaries). -/
def testPats (pats : List (List Pat)) (s : List Char) : Bool :=
  pats.any fun p => regexSearch p s

/-- Compile a literal phrase to pattern atoms. -/
def lits (s : String) : List Pat :=
  s.data.map Pat.lit

/-- Compile one alternative of a word-bounded group: leading and trailing
word-boundary assertions around a literal phrase. -/
def word (s : String) : List Pat :=
  Pat.wb :: lits s ++ [Pat.wb]

/-- Title patterns to exclude, from src/scrapers/filters.ts:
`\b(intern|internship|junior|jr\.?|entry.level|graduate|trainee)\b` with
the /i flag.  Each alternative is compiled separately; `jr\.?` carries an
optional dot and `entry.level` a wildcard between the two halves. -/
def EXCLUDED_TITLE_PATTERNS : List (List Pat) :=
  [ word "intern"
  , word "internship"
  , word "junior"
  , Pat.wb :: lits "jr" ++ [Pat.opt '.', Pat.wb]
  , Pat.wb :: lits "entry" ++ [Pat.dot] ++ lits "level" ++ [Pat.wb]
  , word "graduate"
  , word "trainee" ]

/-- Non-US regions and countries from filters.ts.  Alternatives such as
`eu\b` carry an interior word boundary which coincides with the wrapping
one, so each compiles to a single bounded phrase. -/
def NON_US_PATTERNS : List (List Pat) :=
  [ word "europe", word "european", word "emea", word "eu", word "uk"
  , word "united kingdom", word "london", word "berlin", word "paris"
  , word "amsterdam", word "lisbon", word "barcelona", word "spain"
  , word "germany", word "france", word "netherlands", word "portugal"
  , word "ireland", word "switzerland", word "poland", word "warsaw"
  , word "czech", word "austria", word "italy", word "sweden"
  , word "denmark", word "norway", word "finland", word "belgium"
  , word "romania", word "hungary", word "croatia", word "serbia"
  , word "greece", word "ukraine", word "russia", word "turkey"
  , word "israel", word "tel aviv", word "dubai", word "uae"
  , word "saudi", word "qatar", word "middle east", word "africa"
  , word "nigeria", word "south africa", word "kenya", word "india"
  , word "bangalore", word "mumbai", word "hyderabad", word "delhi"
  , word "pakistan", word "bangladesh", word "china", word "beijing"
  , word "shanghai", word "shenzhen", word "hong kong", word "japan"
  , word "tokyo", word "korea", word "south korea", word "singapore"
  , word "philippines", word "vietnam", word "thailand", word "indonesia"
  , word "malaysia", word "taiwan", word "apac", word "asia"
  , word "latin america", word "latam", word "brazil", word "são paulo"
  , word "sao paulo", word "mexico", word "argentina", word "colombia"
  , word "chile", word "peru", word "canada", word "vancouver"
  , word "toronto", word "montreal", word "ottawa", word "australia"
  , word "sydney", word "melbourne", word "new zealand" ]

/-- US cities, states and indicators from filters.ts.
`u\.s\.` keeps its literal dots, and `washington\s*d\.?c\.?` carries a
whitespace star and two optional dots. -/
def US_PATTERNS : List (List Pat) :=
  [ word "united states", word "usa", word "us"
  , Pat.wb :: lits "u.s." ++ [Pat.wb]
  , word "new york", word "nyc", word "san francisco", word "los angeles"
  , word "chicago", word "austin", word "miami", word "boston"
  , word "seattle", word "denver", word "portland", word "atlanta"
  , word "dallas", word "houston", word "philadelphia", word "phoenix"
  , word "minneapolis", word "detroit", word "nashville", word "raleigh"
  , word "charlotte", word "pittsburgh", word "salt lake", word "san diego"
  , word "san jose"
  , Pat.wb :: lits "washington" ++ [Pat.wsStar, Pat.lit 'd', Pat.opt '.', Pat.lit 'c', Pat.opt '.', Pat.wb]
  , word "california", word "texas", word "florida", word "georgia"
  , word "colorado", word "virginia", word "washington", word "oregon"
  , word "north carolina", word "south carolina", word "illinois"
  , word "massachusetts", word "pennsylvania", word "ohio", word "michigan"
  , word "arizona", word "tennessee", word "maryland", word "minnesota"
  , word "wisconsin", word "indiana", word "missouri", word "connecticut"
  , word "iowa", word "utah", word "nevada", word "new jersey"
  , word "new hampshire", word "alabama", word "kentucky", word "louisiana"
  , word "oklahoma", word "arkansas", word "mississippi", word "hawaii"
  , word "idaho", word "montana", word "nebraska", word "new mexico"
  , word "rhode island", word "vermont", word "wyoming", word "maine"
  , word "delaware", word "west virginia", word "south dakota"
  , word "north dakota", word "alaska"
  , word "ca", word "ny", word "nc", word "fl", word "tx"
  , word "wa", word "co", word "il", word "ma" ]

/-- The explicit exclusion `outside\s*(of\s*)?(the\s*)?us` (no word
boundaries in the source regex); the two optional groups expand into four
alternatives, which is test-equivalent. -/
def OUTSIDE_US_PATTERNS : List (List Pat) :=
  [ lits "outside" ++ [Pat.wsStar] ++ lits "us"
  , lits "outside" ++ [Pat.wsStar] ++ lits "of" ++ [Pat.wsStar] ++ lits "us"
  , lits "outside" ++ [Pat.wsStar] ++ lits "the" ++ [Pat.wsStar] ++ lits "us"
  , lits "outside" ++ [Pat.wsStar] ++ lits "of" ++ [Pat.wsStar] ++ lits "the" ++ [Pat.wsStar] ++ lits "us" ]

/-- `\b(remote|global|worldwide|anywhere)\b` from filters.ts line 53. -/
def REMOTE_GLOBAL_PATTERNS : List (List Pat) :=
  [ word "remote", word "global", word "worldwide", word "anywhere" ]

/-- `\bnorth america\b` from filters.ts line 56. -/
def NORTH_AMERICA_PATTERNS : List (List Pat) :=
  [ word "north america" ]

/-- String.prototype.trim: strip whitespace from both ends. -/
def trimChars (s : List Char) : List Char :=
  ((s.dropWhile Char.isWhitespace).reverse.dropWhile Char.isWhitespace).reverse

/-- The character list a location regex test sees: the string trimmed and
lowercased (the latter embeds the /i flag). -/
def locChars (s : String) : List Char :=
  (trimChars s.data).map Char.toLower

/-- NON_US_PATTERNS.test on a location string. -/
def locationMentionsNonUS (s : String) : Bool :=
  testPats NON_US_PATTERNS (locChars s)

/-- US_PATTERNS.test on a location string. -/
def locationMentionsUS (s : String) : Bool :=
  testPats US_PATTERNS (locChars s)

/-- The outside-US regex test on a location string. -/
def locationMentionsOutsideUS (s : String) : Bool :=
  testPats OUTSIDE_US_PATTERNS (locChars s)

/-- The remote/global/worldwide/anywhere regex test on a location string. -/
def locationMentionsRemoteGlobal (s : String) : Bool :=
  testPats REMOTE_GLOBAL_PATTERNS (locChars s)

/-- The north-america regex test on a location string. -/
def locationMentionsNorthAmerica (s : String) : Bool :=
  testPats NORTH_AMERICA_PATTERNS (locChars s)

/-- isLocationUSOrRemote from src/scrapers/filters.ts lines 27-60.
A JavaScript falsy location (undefined, null or the empty string) passes
lines 29 and 32 regardless of the locationType, so both falsy shapes map
to an immediate true here. -/
def isLocationUSOrRemote (location : Option String) (locationType : Option String) : Bool :=
  match location with
  | none => true
  | some s =>
      if s == "" then true
      else if (locChars s).isEmpty then true
      else if locationMentionsOutsideUS s then false
      else if locationMentionsNonUS s then
        (if locationMentionsUS s then true else false)
      else if locationMentionsUS s then true
      else if locationMentionsRemoteGlobal s then true
      else if locationMentionsNorthAmerica s then true
      else true

/-- EXCLUDED_TITLE_PATTERNS.test(title), as the adapters invoke it. -/
def isExcludedTitle (title : String) : Bool :=
  testPats EXCLUDED_TITLE_PATTERNS (title.data.map Char.toLower)

/-! Helper lemmas about the location filter. -/

theorem nonUS_test_nil : testPats NON_US_PATTERNS [] = false := by decide

theorem locationMentionsNonUS_empty : locationMentionsNonUS "" = false := by decide

theorem locChars_nonempty_of_nonUS (s : String) (h : locationMentionsNonUS s = true) :
    (locChars s).isEmpty = false := by
  cases hE : (locChars s).isEmpty with
  | false => rfl
  | true =>
      exfalso
      have hnil : locChars s = [] := by
        cases hl : locChars s with
        | nil => rfl
        | cons c cs => rw [hl] at hE; simp [List.isEmpty] at hE
      unfold locationMentionsNonUS at h
      rw [hnil, nonUS_test_nil] at h
      cases h

theorem str_ne_empty_of_nonUS (s : String) (h : locationMentionsNonUS s = true) :
    (s == "") = false := by
  cases hs : s == "" with
  | false => rfl
  | true =>
      exfalso
      have : s = "" := by simpa using hs
      subst this
      rw [locationMentionsNonUS_empty] at h
      cases h

/-- C2, as stated, is false: the explicit outside-US exclusion on line 38
of filters.ts precedes the US-presence exception.  The location
"London, outside the US" mentions a non-US term (london) and a US term
(the whole word us), yet the function rejects it. -/
theorem claim_C2_counterexample :
    locationMentionsNonUS "London, outside the US" = true
    ∧ locationMentionsUS "London, outside the US" = true
    ∧ isLocationUSOrRemote (some "London, outside the US") none = false := by
  exact ⟨by decide, by decide, by decide⟩

/-- C2 (amended): a location mentioning a non-US vocabulary term and no US
term is rejected; with a US term also present it is accepted, provided the
location does not match the explicit outside-US exclusion, which takes
precedence; and the three quoted examples evaluate as stated. -/
theorem claim_C2_amended :
    (∀ (s : String) (lt : Option String),
        locationMentionsNonUS s = true → locationMentionsUS s = false →
        isLocationUSOrRemote (some s) lt = false)
    ∧ (∀ (s : String) (lt : Option String),
        locationMentionsNonUS s = true → locationMentionsUS s = true →
        locationMentionsOutsideUS s = false →
        isLocationUSOrRemote (some s) lt = true)
    ∧ isLocationUSOrRemote (some "Remote - Europe") none = false
    ∧ isLocationUSOrRemote (some "Remote - New York") none = true
    ∧ isLocationUSOrRemote (some "Worldwide") none = true := by
  refine ⟨?_, ?_, by decide, by decide, by decide⟩
  · intro s lt h1 h2
    have hne := str_ne_empty_of_nonUS s h1
    have hE := locChars_nonempty_of_nonUS s h1
    simp only [isLocationUSOrRemote, hne, hE, h1, h2]
    cases hOut : locationMentionsOutsideUS s <;> simp
  · intro s lt h1 h2 h3
    have hne := str_ne_empty_of_nonUS s h1
    have hE := locChars_nonempty_of_nonUS s h1
    simp only [isLocationUSOrRemote, hne, hE, h1, h2, h3]
    simp

/-- Witness for the amended C2 at concrete inputs. -/
theorem claim_C2_amended_witness :
    isLocationUSOrRemote (some "Berlin, Germany") none = false
    ∧ isLocationUSOrRemote (some "New York / Remote, London") none = true :=
  ⟨claim_C2_amended.1 "Berlin, Germany" none (by decide) (by decide),
   claim_C2_amended.2.1 "New York / Remote, London" none (by decide) (by decide) (by decide)⟩

/-- C4: a missing location (undefined or null), the empty string, and a
whitespace-only string are all accepted, whatever the locationType. -/
theorem claim_C4_fail_open :
    (∀ lt : Option String, isLocationUSOrRemote none lt = true)
    ∧ (∀ lt : Option String, isLocationUSOrRemote (some "") lt = true)
    ∧ (∀ (lt : Option String) (s : String), s.data.all Char.isWhitespace = true →
        isLocationUSOrRemote (some s) lt = true) := by
  refine ⟨fun lt => rfl, fun lt => rfl, ?_⟩
  intro lt s h
  simp only [isLocationUSOrRemote]
  cases hs : s == "" with
  | true => simp
  | false =>
      have hdrop : s.data.dropWhile Char.isWhitespace = [] := by
        rw [List.dropWhile_eq_nil_iff]
        intro x hx
        exact (List.all_eq_true.mp h) x hx
      have htrim : trimChars s.data = [] := by
        unfold trimChars
        rw [hdrop]
        rfl
      have hloc : (locChars s).isEmpty = true := by
        unfold locChars
        rw [htrim]
        rfl
      simp [hloc]

/-- Witness for C4 at concrete inputs. -/
theorem claim_C4_fail_open_witness :
    isLocationUSOrRemote (some "   ") (some "ONSITE") = true :=
  claim_C4_fail_open.2.2 (some "ONSITE") "   " (by decide)

/-! Word-boundary analysis of the title filter. -/

/-- Lowercase ASCII letter. -/
def isLowerAlpha (c : Char) : Bool := 'a' ≤ c && c ≤ 'z'

theorem isLowerAlpha_toNat (c : Char) (h : isLowerAlpha c = true) :
    97 ≤ c.toNat ∧ c.toNat ≤ 122 := by
  simp only [isLowerAlpha, Bool.and_eq_true, decide_eq_true_eq, Char.le_def, UInt32.le_def,
    BitVec.le_def] at h
  simp only [Char.toNat, UInt32.toNat]
  exact h

theorem toLower_eq_self_of_isLowerAlpha (c : Char) (h : isLowerAlpha c = true) :
    c.toLower = c := by
  have hb := isLowerAlpha_toNat c h
  simp only [Char.toLower]
  rw [if_neg (by omega : ¬(Char.toNat c ≥ 65 ∧ Char.toNat c ≤ 90))]

theorem isWordChar_of_isLowerAlpha (c : Char) (h : isLowerAlpha c = true) :
    isWordChar c = true := by
  unfold isWordChar
  unfold isLowerAlpha at h
  rw [h]
  simp

theorem map_toLower_eq_self (l : List Char) (h : ∀ c ∈ l, isLowerAlpha c = true) :
    l.map Char.toLower = l := by
  induction l with
  | nil => rfl
  | cons c l ih =>
      simp only [List.map_cons]
      rw [toLower_eq_self_of_isLowerAlpha c (h c (by simp)),
        ih (fun d hd => h d (by simp [hd]))]

/-- The character just before the position after `a`, falling back to the
character before `a` when `a` is empty. -/
def lastOr (a : List Char) (prev : Option Char) : Option Char :=
  match a.getLast? with
  | some c => some c
  | none => prev

theorem lastOr_cons (c : Char) (a : List Char) (prev : Option Char) :
    lastOr (c :: a) prev = lastOr a (some c) := by
  cases a with
  | nil => rfl
  | cons d a' =>
      unfold lastOr
      rw [List.getLast?_cons_cons]
      cases h : (d :: a').getLast? with
      | none => exact absurd (List.getLast?_eq_none_iff.mp h) (by simp)
      | some e => rfl

theorem searchFrom_of_matchP (p : List Pat) (prev : Option Char) (s : List Char)
    (h : matchP p prev s = true) : searchFrom p prev s = true := by
  cases s <;> simp [searchFrom, h]

theorem searchFrom_append (p : List Pat) :
    ∀ (a : List Char) (prev : Option Char) (s : List Char),
      matchP p (lastOr a prev) s = true → searchFrom p prev (a ++ s) = true := by
  intro a
  induction a with
  | nil =>
      intro prev s h
      exact searchFrom_of_matchP p prev s (by simpa [lastOr] using h)
  | cons c a' ih =>
      intro prev s h
      rw [lastOr_cons] at h
      have h2 := ih (some c) s h
      simp [searchFrom, h2]

theorem matchP_lits_append (ps : List Pat) :
    ∀ (v : List Char) (prev : Option Char) (b : List Char),
      matchP (v.map Pat.lit ++ ps) prev (v ++ b) = matchP ps (lastOr v prev) b := by
  intro v
  induction v with
  | nil => intro prev b; simp [lastOr]
  | cons c v' ih =>
      intro prev b
      simp only [List.map_cons, List.cons_append]
      rw [matchP_lit_cons]
      simp only [beq_self_eq_true, Bool.true_and]
      rw [ih (some c) b, lastOr_cons]

theorem getLast?_ne_none (v : List Char) (hv : v ≠ []) : v.getLast? ≠ none := by
  intro h
  exact hv (List.getLast?_eq_none_iff.mp h)

/-- A word-bounded literal phrase matches at a position whose previous
character is not a word character, when the following text starts with a
non-word character or ends. -/
theorem matchP_word_pos (v : List Char) (hv : v ≠ [])
    (hhead : ∀ c, v.head? = some c → isWordChar c = true)
    (hlast : ∀ c, v.getLast? = some c → isWordChar c = true)
    (prev : Option Char) (hprev : isWordOpt prev = false)
    (b : List Char) (hb : ∀ c, b.head? = some c → isWordChar c = false) :
    matchP (Pat.wb :: v.map Pat.lit ++ [Pat.wb]) prev (v ++ b) = true := by
  rw [show Pat.wb :: v.map Pat.lit ++ [Pat.wb] = Pat.wb :: (v.map Pat.lit ++ [Pat.wb]) from rfl,
    matchP_wb]
  have hbd : atBoundary prev (v ++ b) = true := by
    cases v with
    | nil => exact absurd rfl hv
    | cons c v' =>
        have hc := hhead c rfl
        simp only [atBoundary, List.cons_append, List.head?_cons]
        rw [hprev]
        simp [isWordOpt, hc]
  rw [hbd, Bool.true_and, matchP_lits_append]
  rw [show ([Pat.wb] : List Pat) = Pat.wb :: [] from rfl, matchP_wb, matchP_nil, Bool.and_true]
  cases hgl : v.getLast? with
  | none => exact absurd hgl (getLast?_ne_none v hv)
  | some c =>
      have hw := hlast c hgl
      unfold lastOr
      rw [hgl]
      cases hb' : b.head? with
      | none => simp [atBoundary, isWordOpt, hb', hw]
      | some d =>
          have hd := hb d hb'
          simp [atBoundary, isWordOpt, hb', hw, hd]

theorem head?_map_toLower (l : List Char) :
    (l.map Char.toLower).head? = l.head?.map Char.toLower := by
  cases l <;> rfl

theorem getLast?_map_toLower (l : List Char) :
    (l.map Char.toLower).getLast? = l.getLast?.map Char.toLower :=
  List.getLast?_map Char.toLower l

/-- A trailing word boundary holds after a word character when the
remaining text starts with a non-word character or ends. -/
theorem matchP_wb_end (c : Char) (hc : isWordChar c = true) (b : List Char)
    (hb : ∀ d, b.head? = some d → isWordChar d = false) :
    matchP [Pat.wb] (some c) b = true := by
  rw [show ([Pat.wb] : List Pat) = Pat.wb :: [] from rfl, matchP_wb, matchP_nil, Bool.and_true]
  cases b with
  | nil => simp [atBoundary, isWordOpt, hc]
  | cons d rest =>
      have hd := hb d rfl
      simp [atBoundary, isWordOpt, hc, hd]

/-- The `jr\.?` alternative matches a whole-word occurrence of jr. -/
theorem matchP_jr_pos (prev : Option Char) (hprev : isWordOpt prev = false)
    (b : List Char) (hb : ∀ c, b.head? = some c → isWordChar c = false) :
    matchP (Pat.wb :: lits "jr" ++ [Pat.opt '.', Pat.wb]) prev ("jr".data ++ b) = true := by
  rw [show Pat.wb :: lits "jr" ++ [Pat.opt '.', Pat.wb]
      = Pat.wb :: ("jr".data.map Pat.lit ++ [Pat.opt '.', Pat.wb]) from rfl, matchP_wb]
  rw [show ("jr".data ++ b : List Char) = 'j' :: ('r' :: b) from rfl]
  have hbd : atBoundary prev ('j' :: ('r' :: b)) = true := by
    simp only [atBoundary, List.head?_cons]
    rw [hprev]
    simp [isWordOpt, isWordChar]
  rw [hbd, Bool.true_and]
  rw [show ('j' :: ('r' :: b) : List Char) = "jr".data ++ b from rfl, matchP_lits_append]
  rw [show lastOr "jr".data prev = some 'r' from rfl]
  cases b with
  | nil =>
      rw [matchP_opt_nil]
      decide
  | cons d rest =>
      rw [matchP_opt_cons]
      have h2 := matchP_wb_end 'r' (by decide) (d :: rest) (fun e he => by
        simp only [List.head?_cons, Option.some.injEq] at he
        exact he ▸ hb d rfl)
      rw [h2]
      simp

/-- The `entry.level` alternative matches a whole-word occurrence of the
hyphenated phrase entry-level (the dot consumes the hyphen). -/
theorem matchP_entry_level_pos (prev : Option Char) (hprev : isWordOpt prev = false)
    (b : List Char) (hb : ∀ c, b.head? = some c → isWordChar c = false) :
    matchP (Pat.wb :: lits "entry" ++ [Pat.dot] ++ lits "level" ++ [Pat.wb]) prev
      ("entry-level".data ++ b) = true := by
  rw [show Pat.wb :: lits "entry" ++ [Pat.dot] ++ lits "level" ++ [Pat.wb]
      = Pat.wb :: ("entry".data.map Pat.lit
          ++ (Pat.dot :: ("level".data.map Pat.lit ++ [Pat.wb]))) from rfl, matchP_wb]
  rw [show ("entry-level".data ++ b : List Char)
      = "entry".data ++ ('-' :: ("level".data ++ b)) from rfl]
  have hbd : atBoundary prev ("entry".data ++ ('-' :: ("level".data ++ b))) = true := by
    rw [show ("entry".data ++ ('-' :: ("level".data ++ b)) : List Char)
        = 'e' :: ("ntry".data ++ ('-' :: ("level".data ++ b))) from rfl]
    simp only [atBoundary, List.head?_cons]
    rw [hprev]
    simp [isWordOpt, isWordChar]
  rw [hbd, Bool.true_and, matchP_lits_append, matchP_dot_cons, matchP_lits_append]
  rw [show lastOr "level".data (some '-') = some 'l' from rfl]
  exact matchP_wb_end 'l' (by decide) b hb

/-- testPats is true as soon as one member pattern matches somewhere. -/
theorem testPats_of_mem (pats : List (List Pat)) (p : List Pat) (hp : p ∈ pats)
    (s : List Char) (h : regexSearch p s = true) : testPats pats s = true :=
  List.any_eq_true.mpr ⟨p, hp, h⟩

/-! Negative direction: a pattern of the shape boundary-then-literal can
never match strictly inside a run of word characters. -/

theorem matchP_wbLit_nil (q : Char) (ps : List Pat) (prev : Option Char) :
    matchP (Pat.wb :: (Pat.lit q :: ps)) prev [] = false := by
  rw [matchP_wb, matchP_lit_nil, Bool.and_false]

theorem matchP_wbLit_midword (q : Char) (ps : List Pat) (prev : Option Char) (d : Char)
    (rest : List Char) (hprev : isWordOpt prev = true) (hd : isWordChar d = true) :
    matchP (Pat.wb :: (Pat.lit q :: ps)) prev (d :: rest) = false := by
  rw [matchP_wb]
  simp only [atBoundary, List.head?_cons]
  rw [hprev]
  simp [isWordOpt, hd]

theorem searchFrom_word_fail (q : Char) (ps : List Pat) :
    ∀ (s : List Char) (c : Char), (∀ d ∈ s, isWordChar d = true) → isWordChar c = true →
      searchFrom (Pat.wb :: (Pat.lit q :: ps)) (some c) s = false := by
  intro s
  induction s with
  | nil =>
      intro c _ _
      exact matchP_wbLit_nil q ps (some c)
  | cons d rest ih =>
      intro c hall hc
      show (matchP _ _ _ || searchFrom _ _ _) = false
      rw [matchP_wbLit_midword q ps (some c) d rest (by simp [isWordOpt, hc])
            (hall d (by simp)),
          ih d (fun e he => hall e (by simp [he])) (hall d (by simp))]
      rfl

/-- Successful literal matching splits the subject text. -/
theorem matchP_lits_decompose (ps : List Pat) :
    ∀ (v : List Char) (prev : Option Char) (t : List Char),
      matchP (v.map Pat.lit ++ ps) prev t = true →
      ∃ t', t = v ++ t' ∧ matchP ps (lastOr v prev) t' = true := by
  intro v
  induction v with
  | nil =>
      intro prev t h
      exact ⟨t, rfl, by simpa [lastOr] using h⟩
  | cons c v' ih =>
      intro prev t h
      cases t with
      | nil =>
          rw [List.map_cons, List.cons_append, matchP_lit_nil] at h
          cases h
      | cons d t2 =>
          rw [List.map_cons, List.cons_append, matchP_lit_cons] at h
          have hd : d = c := by
            cases hdc : d == c with
            | false => rw [hdc, Bool.false_and] at h; cases h
            | true => exact eq_of_beq hdc
          subst hd
          simp only [beq_self_eq_true, Bool.true_and] at h
          obtain ⟨t', ht, hm⟩ := ih (some d) t2 h
          refine ⟨t', by rw [ht, List.cons_append], ?_⟩
          rw [lastOr_cons]
          exact hm

/-- Inside a run of word characters, a literal phrase followed by a word
boundary can only match by exhausting the whole text. -/
theorem matchP_lits_wb_eq (v t : List Char) (prev : Option Char)
    (hword : ∀ d ∈ t, isWordChar d = true) (hv : v ≠ [])
    (h : matchP (v.map Pat.lit ++ [Pat.wb]) prev t = true) : t = v := by
  obtain ⟨t', ht, hm⟩ := matchP_lits_decompose [Pat.wb] v prev t h
  subst ht
  suffices ht' : t' = [] by rw [ht']; simp
  cases hgl : v.getLast? with
  | none => exact absurd (List.getLast?_eq_none_iff.mp hgl) hv
  | some c =>
      have hcw : isWordChar c = true :=
        hword c (List.mem_append_left t' (List.mem_of_getLast?_eq_some hgl))
      rw [show ([Pat.wb] : List Pat) = Pat.wb :: [] from rfl, matchP_wb, matchP_nil,
        Bool.and_true] at hm
      unfold lastOr at hm
      rw [hgl] at hm
      cases t' with
      | nil => rfl
      | cons d rest =>
          exfalso
          have hdw : isWordChar d = true := hword d (by simp)
          simp [atBoundary, isWordOpt, hcw, hdw] at hm

/-- In word-only text, a whole word-bounded literal alternative matching at
the start forces the text to equal the phrase. -/
theorem matchP_word_whole (v t : List Char) (hv : v ≠ [])
    (hword : ∀ d ∈ t, isWordChar d = true)
    (h : matchP (Pat.wb :: v.map Pat.lit ++ [Pat.wb]) none t = true) : t = v := by
  rw [show Pat.wb :: v.map Pat.lit ++ [Pat.wb]
      = Pat.wb :: (v.map Pat.lit ++ [Pat.wb]) from rfl, matchP_wb] at h
  exact matchP_lits_wb_eq v t none hword hv (Bool.and_eq_true_iff.mp h).2

/-- In word-only text, the `jr\.?` alternative matching at the start
forces the text to equal jr. -/
theorem matchP_jr_whole (t : List Char) (hword : ∀ d ∈ t, isWordChar d = true)
    (h : matchP (Pat.wb :: lits "jr" ++ [Pat.opt '.', Pat.wb]) none t = true) :
    t = "jr".data := by
  rw [show Pat.wb :: lits "jr" ++ [Pat.opt '.', Pat.wb]
      = Pat.wb :: ("jr".data.map Pat.lit ++ [Pat.opt '.', Pat.wb]) from rfl, matchP_wb] at h
  obtain ⟨t', ht, hm⟩ :=
    matchP_lits_decompose [Pat.opt '.', Pat.wb] "jr".data none t (Bool.and_eq_true_iff.mp h).2
  subst ht
  suffices ht' : t' = [] by rw [ht']; simp
  rw [show lastOr "jr".data none = some 'r' from rfl] at hm
  cases t' with
  | nil => rfl
  | cons d rest =>
      exfalso
      have hdw : isWordChar d = true := hword d (by simp)
      rw [matchP_opt_cons] at hm
      have hd1 : (d == '.') = false := by
        cases he : d == '.' with
        | false => rfl
        | true =>
            exfalso
            rw [eq_of_beq he] at hdw
            exact absurd hdw (by decide)
      have hd2 : matchP [Pat.wb] (some 'r') (d :: rest) = false := by
        rw [show ([Pat.wb] : List Pat) = Pat.wb :: [] from rfl, matchP_wb]
        have hbd : atBoundary (some 'r') (d :: rest) = false := by
          simp only [atBoundary, List.head?_cons, isWordOpt]
          rw [hdw, show isWordChar 'r' = true from by decide]
          rfl
        rw [hbd, Bool.false_and]
      rw [hd1, hd2, Bool.false_and, Bool.false_or] at hm
      cases hm

/-- In word-only text, the `entry.level` alternative matching at the start
forces the text to be entry, a word character, then level. -/
theorem matchP_entry_whole (t : List Char) (hword : ∀ d ∈ t, isWordChar d = true)
    (h : matchP (Pat.wb :: lits "entry" ++ [Pat.dot] ++ lits "level" ++ [Pat.wb]) none t
        = true) :
    ∃ c, isWordChar c = true ∧ t = "entry".data ++ c :: "level".data := by
  rw [show Pat.wb :: lits "entry" ++ [Pat.dot] ++ lits "level" ++ [Pat.wb]
      = Pat.wb :: ("entry".data.map Pat.lit
          ++ (Pat.dot :: ("level".data.map Pat.lit ++ [Pat.wb]))) from rfl, matchP_wb] at h
  obtain ⟨t1, ht1, hm1⟩ :=
    matchP_lits_decompose _ "entry".data none t (Bool.and_eq_true_iff.mp h).2
  cases t1 with
  | nil =>
      rw [matchP_dot_nil] at hm1
      cases hm1
  | cons c t2 =>
      rw [matchP_dot_cons] at hm1
      have hc : isWordChar c = true := hword c (by rw [ht1]; simp)
      have ht2 : t2 = "level".data :=
        matchP_lits_wb_eq "level".data t2 (some c)
          (fun d hd => hword d (by rw [ht1]; simp [hd])) (by decide) hm1
      exact ⟨c, hc, by rw [ht1, ht2]⟩

/-- No occurrence of `w` strictly inside `v`: every position where `w`
occurs in `v` is at the very start or flush with the end. -/
def noIntOcc (w v : List Char) : Prop :=
  ∀ i, i < v.length → ((v.drop i).take w.length = w → i = 0 ∨ i + w.length = v.length)

instance (w v : List Char) : Decidable (noIntOcc w v) := by
  unfold noIntOcc
  infer_instance

theorem append_ne_of_noIntOcc (w v : List Char) (hw : w ≠ []) (hdec : noIntOcc w v)
    (a b : List Char) (ha : a ≠ []) (hb : b ≠ []) : a ++ w ++ b ≠ v := by
  intro heq
  have hlen : v.length = a.length + w.length + b.length := by
    rw [← heq]
    simp only [List.length_append]
  have hdrop : v.drop a.length = w ++ b := by
    rw [← heq, List.append_assoc]
    exact List.drop_left a (w ++ b)
  have htake : (v.drop a.length).take w.length = w := by
    rw [hdrop]
    exact List.take_left w b
  have h1 : 0 < w.length := List.length_pos.mpr hw
  have h2 : 0 < a.length := List.length_pos.mpr ha
  have h3 : 0 < b.length := List.length_pos.mpr hb
  rcases hdec a.length (by omega) htake with h0 | hend
  · omega
  · omega

/-- The text forced by the `entry.level` alternative, with the wildcard
position left open. -/
def entryTemplate : List (Option Char) :=
  ("entry".data.map some) ++ [none] ++ ("level".data.map some)

/-- At offset `i + k` the template holds a fixed character that differs
from character `k` of `w`. -/
def templateMismatchB (w : List Char) (i k : Nat) : Bool :=
  match entryTemplate[i + k]?, w[k]? with
  | some (some c), some d => !(c == d)
  | _, _ => false

/-- `w` cannot occur strictly inside any text of the entry-wildcard-level
shape: every interior offset has a mismatching fixed character. -/
def noEntryOcc (w : List Char) : Prop :=
  ∀ i, i < 11 → 1 ≤ i → i + w.length ≤ 10 → ∃ k, k < w.length ∧ templateMismatchB w i k = true

instance (w : List Char) : Decidable (noEntryOcc w) := by
  unfold noEntryOcc
  infer_instance

theorem template_agrees (c : Char) (j : Nat) (c0 : Char)
    (h : entryTemplate[j]? = some (some c0)) :
    ("entry".data ++ c :: "level".data)[j]? = some c0 := by
  have hj : j < 11 := by
    by_contra hj
    push_neg at hj
    rw [List.getElem?_eq_none (by simpa [entryTemplate] using hj)] at h
    cases h
  rw [show ("entry".data ++ c :: "level".data : List Char)
      = ['e', 'n', 't', 'r', 'y', c, 'l', 'e', 'v', 'e', 'l'] from rfl]
  interval_cases j <;> simp_all [entryTemplate] <;> assumption

theorem entry_whole_ne (w : List Char) (hdec : noEntryOcc w) (c : Char)
    (a b : List Char) (ha : a ≠ []) (hb : b ≠ []) :
    a ++ w ++ b ≠ "entry".data ++ c :: "level".data := by
  intro heq
  have hlen : a.length + w.length + b.length = 11 := by
    have hl := congrArg List.length heq
    rw [show ("entry".data ++ c :: "level".data).length = 11 from rfl] at hl
    simp only [List.length_append] at hl
    omega
  have h2 : 0 < a.length := List.length_pos.mpr ha
  have h3 : 0 < b.length := List.length_pos.mpr hb
  obtain ⟨k, hk, hmis⟩ := hdec a.length (by omega) (by omega) (by omega)
  unfold templateMismatchB at hmis
  cases htv : entryTemplate[a.length + k]? with
  | none => rw [htv] at hmis; cases hmis
  | some oc =>
      cases oc with
      | none => rw [htv] at hmis; cases hmis
      | some c0 =>
          cases hwv : w[k]? with
          | none => rw [htv, hwv] at hmis; cases hmis
          | some d =>
              rw [htv, hwv] at hmis
              have hne : ¬(c0 = d) := by
                intro hcd
                rw [hcd] at hmis
                simp at hmis
              have hd : ("entry".data ++ c :: "level".data)[a.length + k]? = some d := by
                rw [← heq, List.append_assoc,
                  List.getElem?_append_right (by omega : a.length ≤ a.length + k),
                  Nat.add_sub_cancel_left,
                  List.getElem?_append_left hk]
                exact hwv
              rw [template_agrees c (a.length + k) c0 htv] at hd
              exact hne (Option.some.injEq _ _ ▸ hd)

theorem regexSearch_cons (p : List Pat) (t0 : Char) (rest : List Char) :
    regexSearch p (t0 :: rest) = (matchP p none (t0 :: rest) || searchFrom p (some t0) rest) :=
  rfl

/-- Over word-only text, a boundary-then-literal pattern can only match at
the very start. -/
theorem regexSearch_word_only_start (p : List Pat) (q : Char) (ps : List Pat)
    (hshape : p = Pat.wb :: (Pat.lit q :: ps)) (t0 : Char) (T : List Char)
    (hT : ∀ d ∈ T, isWordChar d = true) (h0 : isWordChar t0 = true)
    (h : regexSearch p (t0 :: T) = true) : matchP p none (t0 :: T) = true := by
  subst hshape
  rw [regexSearch_cons, Bool.or_eq_true] at h
  rcases h with h | h
  · exact h
  · rw [searchFrom_word_fail q ps T t0 hT h0] at h
    cases h

/-- Master negative lemma: a junior-vocabulary word sitting strictly inside
one longer all-lowercase-letter word never fires the title regex. -/
theorem isExcludedTitle_internal_false (w : List Char) (hw2 : 2 ≤ w.length)
    (h1 : noIntOcc w "intern".data) (h2 : noIntOcc w "internship".data)
    (h3 : noIntOcc w "junior".data) (h4 : noIntOcc w "graduate".data)
    (h5 : noIntOcc w "trainee".data) (h6 : noEntryOcc w)
    (a b : List Char) (ha : a ≠ []) (hb : b ≠ [])
    (hlow : ∀ c ∈ a ++ w ++ b, isLowerAlpha c = true) :
    isExcludedTitle (String.mk (a ++ w ++ b)) = false := by
  have htword : ∀ c ∈ a ++ w ++ b, isWordChar c = true :=
    fun c hc => isWordChar_of_isLowerAlpha c (hlow c hc)
  have hwne : w ≠ [] := by
    intro h
    rw [h] at hw2
    simp at hw2
  unfold isExcludedTitle
  rw [show (String.mk (a ++ w ++ b)).data = a ++ w ++ b from rfl,
    map_toLower_eq_self _ hlow]
  obtain ⟨a0, a', rfl⟩ : ∃ a0 a', a = a0 :: a' := by
    cases a with
    | nil => exact absurd rfl ha
    | cons x xs => exact ⟨x, xs, rfl⟩
  have htc : (a0 :: a') ++ w ++ b = a0 :: (a' ++ w ++ b) := by simp
  have hrest : ∀ d ∈ a' ++ w ++ b, isWordChar d = true := by
    intro d hd
    exact htword d (by rw [htc]; exact List.mem_cons_of_mem a0 hd)
  have h0 : isWordChar a0 = true := htword a0 (by rw [htc]; exact List.mem_cons_self a0 _)
  apply List.any_eq_false.mpr
  intro p hp
  simp only [EXCLUDED_TITLE_PATTERNS, List.mem_cons, List.not_mem_nil, or_false] at hp
  intro hcontra
  rcases hp with rfl | rfl | rfl | rfl | rfl | rfl | rfl
  · -- intern
    have hstart := regexSearch_word_only_start _ 'i' _ rfl a0 (a' ++ w ++ b) hrest h0
      (htc ▸ hcontra)
    have hteq := matchP_word_whole "intern".data (a0 :: (a' ++ w ++ b)) (by decide)
      (htc ▸ htword) hstart
    exact append_ne_of_noIntOcc w "intern".data hwne h1 (a0 :: a') b ha hb (htc.trans hteq)
  · -- internship
    have hstart := regexSearch_word_only_start _ 'i' _ rfl a0 (a' ++ w ++ b) hrest h0
      (htc ▸ hcontra)
    have hteq := matchP_word_whole "internship".data (a0 :: (a' ++ w ++ b)) (by decide)
      (htc ▸ htword) hstart
    exact append_ne_of_noIntOcc w "internship".data hwne h2 (a0 :: a') b ha hb
      (htc.trans hteq)
  · -- junior
    have hstart := regexSearch_word_only_start _ 'j' _ rfl a0 (a' ++ w ++ b) hrest h0
      (htc ▸ hcontra)
    have hteq := matchP_word_whole "junior".data (a0 :: (a' ++ w ++ b)) (by decide)
      (htc ▸ htword) hstart
    exact append_ne_of_noIntOcc w "junior".data hwne h3 (a0 :: a') b ha hb (htc.trans hteq)
  · -- jr
    have hstart := regexSearch_word_only_start _ 'j' _ rfl a0 (a' ++ w ++ b) hrest h0
      (htc ▸ hcontra)
    have hteq := matchP_jr_whole (a0 :: (a' ++ w ++ b)) (htc ▸ htword) hstart
    have hlen := congrArg List.length (htc.trans hteq)
    simp only [List.length_append, List.length_cons, List.length_nil] at hlen
    have hbl : 0 < b.length := List.length_pos.mpr hb
    omega
  · -- entry.level
    have hstart := regexSearch_word_only_start _ 'e' _ rfl a0 (a' ++ w ++ b) hrest h0
      (htc ▸ hcontra)
    obtain ⟨c, _, hteq⟩ := matchP_entry_whole (a0 :: (a' ++ w ++ b)) (htc ▸ htword) hstart
    exact entry_whole_ne w h6 c (a0 :: a') b ha hb (htc.trans hteq)
  · -- graduate
    have hstart := regexSearch_word_only_start _ 'g' _ rfl a0 (a' ++ w ++ b) hrest h0
      (htc ▸ hcontra)
    have hteq := matchP_word_whole "graduate".data (a0 :: (a' ++ w ++ b)) (by decide)
      (htc ▸ htword) hstart
    exact append_ne_of_noIntOcc w "graduate".data hwne h4 (a0 :: a') b ha hb (htc.trans hteq)
  · -- trainee
    have hstart := regexSearch_word_only_start _ 't' _ rfl a0 (a' ++ w ++ b) hrest h0
      (htc ▸ hcontra)
    have hteq := matchP_word_whole "trainee".data (a0 :: (a' ++ w ++ b)) (by decide)
      (htc ▸ htword) hstart
    exact append_ne_of_noIntOcc w "trainee".data hwne h5 (a0 :: a') b ha hb (htc.trans hteq)

theorem lastOr_none (l : List Char) : lastOr l none = l.getLast? := by
  unfold lastOr
  cases l.getLast? <;> rfl

/-- The junior-signal vocabulary named by the specification. -/
def juniorTitleWords : List String :=
  ["intern", "internship", "junior", "jr", "entry-level", "graduate", "trainee"]

/-- C3: a title containing a junior-signal vocabulary word as a whole word
(case-insensitively: any casing `w'` that lowercases to the word, with no
word character adjacent on either side) always fires the title filter,
while a vocabulary word sitting strictly inside one longer all-letter word
never does; in particular the quoted Juniorita example does not match. -/
theorem claim_C3_title_word_boundary :
    (∀ w ∈ juniorTitleWords, ∀ (a w' b : List Char),
        w'.map Char.toLower = w.data →
        isWordOpt (a.getLast?.map Char.toLower) = false →
        isWordOpt (b.head?.map Char.toLower) = false →
        isExcludedTitle (String.mk (a ++ w' ++ b)) = true)
    ∧ (∀ w ∈ juniorTitleWords, ∀ (a b : List Char), a ≠ [] → b ≠ [] →
        (∀ c ∈ a ++ w.data ++ b, isLowerAlpha c = true) →
        isExcludedTitle (String.mk (a ++ w.data ++ b)) = false)
    ∧ isExcludedTitle "Juniorita" = false := by
  refine ⟨?_, ?_, by decide⟩
  · intro w hw a w' b hw' ha hb
    unfold isExcludedTitle
    rw [show (String.mk (a ++ w' ++ b)).data = a ++ w' ++ b from rfl]
    rw [List.map_append, List.map_append, hw', List.append_assoc]
    have hprev : isWordOpt (lastOr (a.map Char.toLower) none) = false := by
      rw [lastOr_none, getLast?_map_toLower]
      exact ha
    have hbh : ∀ c, (b.map Char.toLower).head? = some c → isWordChar c = false := by
      intro c hc
      rw [head?_map_toLower] at hc
      rw [hc] at hb
      exact hb
    simp only [juniorTitleWords, List.mem_cons, List.not_mem_nil, or_false] at hw
    rcases hw with rfl | rfl | rfl | rfl | rfl | rfl | rfl
    · exact testPats_of_mem _ (word "intern") (by decide) _
        (searchFrom_append _ _ none _
          (matchP_word_pos "intern".data (by decide) (by decide) (by decide) _ hprev _ hbh))
    · exact testPats_of_mem _ (word "internship") (by decide) _
        (searchFrom_append _ _ none _
          (matchP_word_pos "internship".data (by decide) (by decide) (by decide) _ hprev _ hbh))
    · exact testPats_of_mem _ (word "junior") (by decide) _
        (searchFrom_append _ _ none _
          (matchP_word_pos "junior".data (by decide) (by decide) (by decide) _ hprev _ hbh))
    · exact testPats_of_mem _ (Pat.wb :: lits "jr" ++ [Pat.opt '.', Pat.wb]) (by decide) _
        (searchFrom_append _ _ none _ (matchP_jr_pos _ hprev _ hbh))
    · exact testPats_of_mem _
        (Pat.wb :: lits "entry" ++ [Pat.dot] ++ lits "level" ++ [Pat.wb]) (by decide) _
        (searchFrom_append _ _ none _ (matchP_entry_level_pos _ hprev _ hbh))
    · exact testPats_of_mem _ (word "graduate") (by decide) _
        (searchFrom_append _ _ none _
          (matchP_word_pos "graduate".data (by decide) (by decide) (by decide) _ hprev _ hbh))
    · exact testPats_of_mem _ (word "trainee") (by decide) _
        (searchFrom_append _ _ none _
          (matchP_word_pos "trainee".data (by decide) (by decide) (by decide) _ hprev _ hbh))
  · intro w hw a b ha hb hlow
    simp only [juniorTitleWords, List.mem_cons, List.not_mem_nil, or_false] at hw
    rcases hw with rfl | rfl | rfl | rfl | rfl | rfl | rfl
    · exact isExcludedTitle_internal_false "intern".data (by decide) (by decide) (by decide)
        (by decide) (by decide) (by decide) (by decide) a b ha hb hlow
    · exact isExcludedTitle_internal_false "internship".data (by decide) (by decide)
        (by decide) (by decide) (by decide) (by decide) (by decide) a b ha hb hlow
    · exact isExcludedTitle_internal_false "junior".data (by decide) (by decide) (by decide)
        (by decide) (by decide) (by decide) (by decide) a b ha hb hlow
    · exact isExcludedTitle_internal_false "jr".data (by decide) (by decide) (by decide)
        (by decide) (by decide) (by decide) (by decide) a b ha hb hlow
    · have hmem : '-' ∈ a ++ "entry-level".data ++ b :=
        List.mem_append_left b (List.mem_append_right a (by decide))
      exact absurd (hlow '-' hmem) (by decide)
    · exact isExcludedTitle_internal_false "graduate".data (by decide) (by decide)
        (by decide) (by decide) (by decide) (by decide) (by decide) a b ha hb hlow
    · exact isExcludedTitle_internal_false "trainee".data (by decide) (by decide)
        (by decide) (by decide) (by decide) (by decide) (by decide) a b ha hb hlow

/-- Witness for C3 at concrete inputs: a whole-word capitalised Junior
fires the filter, and junior buried inside one longer word does not. -/
theorem claim_C3_title_word_boundary_witness :
    isExcludedTitle (String.mk ("lead ".data ++ "Junior".data ++ " dev".data)) = true
    ∧ isExcludedTitle (String.mk ("x".data ++ "junior".data ++ "y".data)) = false :=
  ⟨claim_C3_title_word_boundary.1 "junior" (by decide) "lead ".data "Junior".data " dev".data
      (by decide) (by decide) (by decide),
   claim_C3_title_word_boundary.2.1 "junior" (by decide) "x".data "y".data
      (by decide) (by decide) (by decide)⟩

/-! The persistence layer (src/db/index.ts).  Tables are lists in
insertion order; `.get` of a SELECT returns the first scanned match, an
UPDATE rewrites every row matching its WHERE clause, and an INSERT
appends.  JSON-stringified array columns (tags, chains) are kept as the
lists they serialise, and the raw payload as an opaque string. -/

/-- The argument record of upsertJob (optional fields are absent keys). -/
structure JobInput where
  source : String
  sourceId : String
  url : Option String := none
  title : String
  company : Option String := none
  description : Option String := none
  location : Option String := none
  locationType : Option String := none
  seniority : Option String := none
  category : Option String := none
  salaryMin : Option Int := none
  salaryMax : Option Int := none
  tags : List String := []
  chains : List String := []
  postedAt : Option String := none
  rawData : String := ""
deriving Repr, DecidableEq

/-- One row of the jobs table. -/
structure JobRow where
  id : String
  source : String
  sourceId : String
  url : Option String
  title : String
  company : Option String
  description : Option String
  location : Option String
  locationType : Option String
  seniority : Option String
  category : Option String
  salaryMin : Option Int
  salaryMax : Option Int
  tags : List String
  chains : List String
  postedAt : Option String
  scrapedAt : String
  rawData : String
deriving Repr, DecidableEq

/-- The WHERE source = ? AND source_id = ? lookup predicate. -/
def rowKeyMatches (src sid : String) (r : JobRow) : Bool :=
  r.source == src && r.sourceId == sid

/-- The INSERT of upsertJob: a fresh row from the input. -/
def newRowOfInput (rowId now : String) (j : JobInput) : JobRow :=
  { id := rowId
    source := j.source
    sourceId := j.sourceId
    url := j.url
    title := j.title
    company := j.company
    description := j.description
    location := j.location
    locationType := j.locationType
    seniority := j.seniority
    category := j.category
    salaryMin := j.salaryMin
    salaryMax := j.salaryMax
    tags := j.tags
    chains := j.chains
    postedAt := j.postedAt
    scrapedAt := now
    rawData := j.rawData }

/-- The UPDATE of upsertJob: every mutable column and scraped_at are
overwritten; id, source and source_id are not in the SET list. -/
def applyJobUpdate (now : String) (j : JobInput) (r : JobRow) : JobRow :=
  { r with
    url := j.url
    title := j.title
    company := j.company
    description := j.description
    location := j.location
    locationType := j.locationType
    seniority := j.seniority
    category := j.category
    salaryMin := j.salaryMin
    salaryMax := j.salaryMax
    tags := j.tags
    chains := j.chains
    postedAt := j.postedAt
    scrapedAt := now
    rawData := j.rawData }

/-- upsertJob from src/db/index.ts lines 62-121.  `freshId` stands for the
uuid generated on entry and `now` for the timestamp; the result carries
the new table, the returned id and the isNew flag. -/
def upsertJob (freshId now : String) (j : JobInput) (jobs : List JobRow) :
    List JobRow × String × Bool :=
  match jobs.find? (rowKeyMatches j.source j.sourceId) with
  | some existing =>
      (jobs.map (fun r => if r.id == existing.id then applyJobUpdate now j r else r),
        existing.id, false)
  | none => (jobs ++ [newRowOfInput freshId now j], freshId, true)

/-- States of the jobs table reachable by upsertJob calls from an empty
table. -/
inductive ReachableJobs : List JobRow → Prop
  | empty : ReachableJobs []
  | step (jobs : List JobRow) (freshId now : String) (j : JobInput) :
      ReachableJobs jobs → ReachableJobs (upsertJob freshId now j jobs).1

theorem upsertJob_of_find_some (freshId now : String) (j : JobInput) (jobs : List JobRow)
    (existing : JobRow)
    (h : jobs.find? (rowKeyMatches j.source j.sourceId) = some existing) :
    upsertJob freshId now j jobs
      = (jobs.map (fun r => if r.id == existing.id then applyJobUpdate now j r else r),
          existing.id, false) := by
  unfold upsertJob
  rw [h]

theorem upsertJob_of_find_none (freshId now : String) (j : JobInput) (jobs : List JobRow)
    (h : jobs.find? (rowKeyMatches j.source j.sourceId) = none) :
    upsertJob freshId now j jobs = (jobs ++ [newRowOfInput freshId now j], freshId, true) := by
  unfold upsertJob
  rw [h]

theorem rowKeyMatches_applyJobUpdate (src sid now : String) (j : JobInput) (r : JobRow) :
    rowKeyMatches src sid (applyJobUpdate now j r) = rowKeyMatches src sid r := rfl

theorem rowKeyMatches_update_fun (src sid now eid : String) (j : JobInput) (r : JobRow) :
    rowKeyMatches src sid (if r.id == eid then applyJobUpdate now j r else r)
      = rowKeyMatches src sid r := by
  cases r.id == eid <;> simp [rowKeyMatches_applyJobUpdate]

/-- An update pass keyed on the id commutes with a key filter. -/
theorem filter_update_eq (src sid now eid : String) (j : JobInput) (jobs : List JobRow) :
    ((jobs.map (fun r => if r.id == eid then applyJobUpdate now j r else r)).filter
        (rowKeyMatches src sid))
      = (jobs.filter (rowKeyMatches src sid)).map
          (fun r => if r.id == eid then applyJobUpdate now j r else r) := by
  rw [List.filter_map]
  congr 1
  apply List.filter_congr
  intro r _
  exact rowKeyMatches_update_fun src sid now eid j r

/-- An update pass keyed on the id leaves the per-key row count intact. -/
theorem filter_update_length (src sid now eid : String) (j : JobInput) (jobs : List JobRow) :
    ((jobs.map (fun r => if r.id == eid then applyJobUpdate now j r else r)).filter
        (rowKeyMatches src sid)).length
      = (jobs.filter (rowKeyMatches src sid)).length := by
  rw [filter_update_eq, List.length_map]

/-- C1 invariant: every reachable jobs table has at most one row per
(source, sourceId) key. -/
theorem reachable_key_unique (jobs : List JobRow) (h : ReachableJobs jobs) :
    ∀ src sid, (jobs.filter (rowKeyMatches src sid)).length ≤ 1 := by
  induction h with
  | empty => intro src sid; simp
  | step jobs freshId now j _ ih =>
      intro src sid
      cases hf : jobs.find? (rowKeyMatches j.source j.sourceId) with
      | some existing =>
          rw [upsertJob_of_find_some freshId now j jobs existing hf]
          rw [filter_update_length]
          exact ih src sid
      | none =>
          rw [upsertJob_of_find_none freshId now j jobs hf]
          rw [List.filter_append, List.length_append]
          have hnone : ∀ r ∈ jobs, rowKeyMatches j.source j.sourceId r = false := by
            intro r hr
            simpa using List.find?_eq_none.mp hf r hr
          cases hm : rowKeyMatches src sid (newRowOfInput freshId now j) with
          | false =>
              have hz : (List.filter (rowKeyMatches src sid)
                  [newRowOfInput freshId now j]).length = 0 := by
                simp [List.filter, hm]
              have := ih src sid
              omega
          | true =>
              have hss : src = j.source ∧ sid = j.sourceId := by
                unfold rowKeyMatches newRowOfInput at hm
                simp only [Bool.and_eq_true, beq_iff_eq] at hm
                exact ⟨hm.1.symm, hm.2.symm⟩
              have hzero : (jobs.filter (rowKeyMatches src sid)).length = 0 := by
                rw [List.length_eq_zero, List.filter_eq_nil_iff]
                intro r hr
                rw [hss.1, hss.2]
                simp [hnone r hr]
              have hs : (List.filter (rowKeyMatches src sid)
                  [newRowOfInput freshId now j]).length = 1 := by
                simp [List.filter, hm]
              omega

/-- C1: upserting the same (source, sourceId) twice reports isNew on the
first call only, leaves exactly one row under that key whose every column
holds the second call's values, and every reachable table keeps at most
one row per key. -/
theorem claim_C1_upsert_idempotent :
    (∀ (jobs : List JobRow) (j1 j2 : JobInput) (f1 n1 f2 n2 : String),
        j1.source = j2.source → j1.sourceId = j2.sourceId →
        jobs.find? (rowKeyMatches j1.source j1.sourceId) = none →
        (upsertJob f1 n1 j1 jobs).2.2 = true
        ∧ (upsertJob f2 n2 j2 (upsertJob f1 n1 j1 jobs).1).2.2 = false
        ∧ ∃ r : JobRow,
            (upsertJob f2 n2 j2 (upsertJob f1 n1 j1 jobs).1).1.filter
              (rowKeyMatches j2.source j2.sourceId) = [r]
            ∧ r.url = j2.url ∧ r.title = j2.title ∧ r.company = j2.company
            ∧ r.description = j2.description ∧ r.location = j2.location
            ∧ r.locationType = j2.locationType ∧ r.seniority = j2.seniority
            ∧ r.category = j2.category ∧ r.salaryMin = j2.salaryMin
            ∧ r.salaryMax = j2.salaryMax ∧ r.tags = j2.tags ∧ r.chains = j2.chains
            ∧ r.postedAt = j2.postedAt ∧ r.scrapedAt = n2 ∧ r.rawData = j2.rawData)
    ∧ (∀ jobs : List JobRow, ReachableJobs jobs →
        ∀ src sid, (jobs.filter (rowKeyMatches src sid)).length ≤ 1) := by
  refine ⟨?_, reachable_key_unique⟩
  intro jobs j1 j2 f1 n1 f2 n2 hsrc hsid hf
  have h1 := upsertJob_of_find_none f1 n1 j1 jobs hf
  have hfj2 : jobs.find? (rowKeyMatches j2.source j2.sourceId) = none := by
    rw [← hsrc, ← hsid]
    exact hf
  have hknew : rowKeyMatches j2.source j2.sourceId (newRowOfInput f1 n1 j1) = true := by
    unfold rowKeyMatches newRowOfInput
    simp [hsrc, hsid]
  have hf2 : ((upsertJob f1 n1 j1 jobs).1).find? (rowKeyMatches j2.source j2.sourceId)
      = some (newRowOfInput f1 n1 j1) := by
    rw [h1]
    simp only [List.find?_append, hfj2, Option.none_or]
    simp [List.find?, hknew]
  have h2 := upsertJob_of_find_some f2 n2 j2 _ _ hf2
  refine ⟨by rw [h1], by rw [h2], applyJobUpdate n2 j2 (newRowOfInput f1 n1 j1), ?_,
    rfl, rfl, rfl, rfl, rfl, rfl, rfl, rfl, rfl, rfl, rfl, rfl, rfl, rfl, rfl⟩
  rw [h2]
  simp only
  rw [filter_update_eq, h1]
  simp only
  rw [List.filter_append]
  have hjz : jobs.filter (rowKeyMatches j2.source j2.sourceId) = [] := by
    rw [List.filter_eq_nil_iff]
    intro r hr
    simpa using List.find?_eq_none.mp hfj2 r hr
  rw [hjz, List.nil_append]
  have hone : List.filter (rowKeyMatches j2.source j2.sourceId) [newRowOfInput f1 n1 j1]
      = [newRowOfInput f1 n1 j1] := by
    simp [List.filter, hknew]
  rw [hone]
  simp [List.map]

/-- Witness for C1 at concrete inputs: two upserts of the same key into an
empty table. -/
theorem claim_C1_upsert_idempotent_witness :
    (upsertJob "id1" "t1" { source := "s", sourceId := "1", title := "a" } []).2.2 = true
    ∧ (upsertJob "id2" "t2" { source := "s", sourceId := "1", title := "b" }
        (upsertJob "id1" "t1" { source := "s", sourceId := "1", title := "a" } []).1).2.2
      = false
    ∧ (([] : List JobRow).filter (rowKeyMatches "s" "1")).length ≤ 1 :=
  ⟨(claim_C1_upsert_idempotent.1 [] { source := "s", sourceId := "1", title := "a" }
      { source := "s", sourceId := "1", title := "b" } "id1" "t1" "id2" "t2" rfl rfl rfl).1,
   (claim_C1_upsert_idempotent.1 [] { source := "s", sourceId := "1", title := "a" }
      { source := "s", sourceId := "1", title := "b" } "id1" "t1" "id2" "t2" rfl rfl rfl).2.1,
   claim_C1_upsert_idempotent.2 [] ReachableJobs.empty "s" "1"⟩

/-- C10: when a row for (source, sourceId) already exists, upsertJob
returns that row's surrogate id (not the freshly generated one), every
row keeps its id, source and sourceId, rows with a different id are
untouched, and the matching row gets exactly the mutable-field update
with the refreshed scrapedAt. -/
theorem claim_C10_update_preserves_identity :
    ∀ (jobs : List JobRow) (j : JobInput) (freshId now : String) (existing : JobRow),
      jobs.find? (rowKeyMatches j.source j.sourceId) = some existing →
      (upsertJob freshId now j jobs).2.1 = existing.id
      ∧ (upsertJob freshId now j jobs).2.2 = false
      ∧ (upsertJob freshId now j jobs).1.length = jobs.length
      ∧ (∀ i : Nat, ((upsertJob freshId now j jobs).1[i]?).map JobRow.id
          = (jobs[i]?).map JobRow.id)
      ∧ (∀ i : Nat, ((upsertJob freshId now j jobs).1[i]?).map JobRow.source
          = (jobs[i]?).map JobRow.source)
      ∧ (∀ i : Nat, ((upsertJob freshId now j jobs).1[i]?).map JobRow.sourceId
          = (jobs[i]?).map JobRow.sourceId)
      ∧ (∀ (i : Nat) (row : JobRow), jobs[i]? = some row → row.id ≠ existing.id →
          (upsertJob freshId now j jobs).1[i]? = some row)
      ∧ (∀ (i : Nat) (row : JobRow), jobs[i]? = some row → row.id = existing.id →
          (upsertJob freshId now j jobs).1[i]? = some (applyJobUpdate now j row)) := by
  intro jobs j freshId now existing hf
  rw [upsertJob_of_find_some freshId now j jobs existing hf]
  dsimp only
  refine ⟨rfl, rfl, List.length_map jobs _, ?_, ?_, ?_, ?_, ?_⟩
  · intro i
    rw [List.getElem?_map]
    cases jobs[i]? with
    | none => rfl
    | some r =>
        simp only [Option.map_some']
        cases r.id == existing.id <;> rfl
  · intro i
    rw [List.getElem?_map]
    cases jobs[i]? with
    | none => rfl
    | some r =>
        simp only [Option.map_some']
        cases r.id == existing.id <;> rfl
  · intro i
    rw [List.getElem?_map]
    cases jobs[i]? with
    | none => rfl
    | some r =>
        simp only [Option.map_some']
        cases r.id == existing.id <;> rfl
  · intro i row hrow hne
    rw [List.getElem?_map, hrow]
    simp only [Option.map_some']
    rw [if_neg (by simpa using hne)]
  · intro i row hrow heq
    rw [List.getElem?_map, hrow]
    simp only [Option.map_some']
    rw [if_pos (by simpa using heq)]

/-- Witness for C10 at concrete inputs: an update on a one-row table
returns the stored id. -/
theorem claim_C10_update_preserves_identity_witness :
    (upsertJob "fresh" "t2" { source := "s", sourceId := "1", title := "b" }
        [newRowOfInput "orig" "t1" { source := "s", sourceId := "1", title := "a" }]).2.1
      = (newRowOfInput "orig" "t1" { source := "s", sourceId := "1", title := "a" }).id :=
  (claim_C10_update_preserves_identity
    [newRowOfInput "orig" "t1" { source := "s", sourceId := "1", title := "a" }]
    { source := "s", sourceId := "1", title := "b" } "fresh" "t2"
    (newRowOfInput "orig" "t1" { source := "s", sourceId := "1", title := "a" })
    (by decide)).1

/-! The scrape orchestrator (src/scrapers/runner.ts) and the run audit
table.  An adapter invocation is an effect the orchestrator awaits, so it
enters the model as a function from source name to either a job list or a
thrown error message; the uuid stream enters as a generator indexed by
position and the clock as a constant timestamp. -/

/-- The adapter output record (src/scrapers/types.ts). -/
structure RawJob where
  sourceId : String
  url : Option String := none
  title : String
  company : Option String := none
  description : Option String := none
  location : Option String := none
  locationType : Option String := none
  seniority : Option String := none
  category : Option String := none
  salaryMin : Option Int := none
  salaryMax : Option Int := none
  tags : List String := []
  chains : List String := []
  postedAt : Option String := none
  rawData : String := ""
deriving Repr, DecidableEq

/-- The spread upsertJob(source, ...raw) from runner.ts line 184. -/
def toJobInput (source : String) (r : RawJob) : JobInput :=
  { source := source
    sourceId := r.sourceId
    url := r.url
    title := r.title
    company := r.company
    description := r.description
    location := r.location
    locationType := r.locationType
    seniority := r.seniority
    category := r.category
    salaryMin := r.salaryMin
    salaryMax := r.salaryMax
    tags := r.tags
    chains := r.chains
    postedAt := r.postedAt
    rawData := r.rawData }

/-- One row of the scrape_runs table; status defaults to running per the
schema, completed_at and error start NULL, the counters start 0. -/
structure ScrapeRunRow where
  id : Nat
  source : String
  startedAt : String
  completedAt : Option String
  status : String
  jobsFound : Nat
  jobsNew : Nat
  error : Option String
deriving Repr, DecidableEq

/-- One row of the job_scores table. -/
structure ScoreRow where
  jobId : String
  overallScore : Int
  relevanceScore : Int
  experienceMatch : Int
  domainMatch : Int
  seniorityFit : Int
  reasoning : String
  scoredAt : String
  modelUsed : String
deriving Repr, DecidableEq

/-- The SQLite database state the pipeline touches. -/
structure Db where
  jobs : List JobRow
  scores : List ScoreRow
  runs : List ScrapeRunRow
  nextRunId : Nat
deriving Repr, DecidableEq

/-- startScrapeRun (src/db/index.ts lines 338-344): INSERT a running row,
return lastInsertRowid. -/
def startScrapeRun (now source : String) (db : Db) : Nat × Db :=
  (db.nextRunId,
    { db with
      runs := db.runs ++ [{ id := db.nextRunId
                            source := source
                            startedAt := now
                            completedAt := none
                            status := "running"
                            jobsFound := 0
                            jobsNew := 0
                            error := none }]
      nextRunId := db.nextRunId + 1 })

/-- completeScrapeRun (src/db/index.ts lines 346-352): UPDATE the row with
the given id, setting completed_at, status, counters and error. -/
def completeScrapeRun (now : String) (runId : Nat) (status : String)
    (jobsFound jobsNew : Nat) (err : Option String) (db : Db) : Db :=
  { db with
    runs := db.runs.map fun r =>
      if r.id == runId then
        { r with
          completedAt := some now
          status := status
          jobsFound := jobsFound
          jobsNew := jobsNew
          error := err }
      else r }

/-- The adapter registry keys of runner.ts lines 162-167, in object-key
order. -/
def knownSources : List String :=
  ["jobstash", "safary", "web3career", "cryptojobslist"]

/-- The upsert loop of runScraper (runner.ts lines 182-186), feeding each
RawJob through upsertJob and counting the isNew results. -/
def upsertLoop (gen : Nat → String) (k : Nat) (now source : String) :
    List RawJob → List JobRow → List JobRow × Nat
  | [], jobs => (jobs, 0)
  | raw :: rest, jobs =>
      let r := upsertJob (gen k) now (toJobInput source raw) jobs
      let tail := upsertLoop gen (k + 1) now source rest r.1
      (tail.1, tail.2 + (if r.2.2 then 1 else 0))

/-- runScraper (runner.ts lines 169-197).  `scrape` is the adapter effect:
a successful job list or a thrown error message (the latter covers both a
rejected promise and a synchronous throw).  An unknown source throws
before any ScrapeRun row is opened. -/
def runScraper (scrape : String → Except String (List RawJob)) (gen : Nat → String)
    (now : String) (source : String) (db : Db) : Except String (Nat × Nat) × Db :=
  if knownSources.contains source then
    let started := startScrapeRun now source db
    match scrape source with
    | .ok rawJobs =>
        let up := upsertLoop gen 0 now source rawJobs (started.2).jobs
        let db2 := { started.2 with jobs := up.1 }
        (.ok (rawJobs.length, up.2),
          completeScrapeRun now started.1 "completed" rawJobs.length up.2 none db2)
    | .error msg =>
        (.error msg, completeScrapeRun now started.1 "failed" 0 0 (some msg) started.2)
  else
    (.error ("Unknown source: " ++ source), db)

/-- The loop of runAllScrapers (runner.ts lines 199-212): sources in
registry order, a failure recorded as a zero entry. -/
def runAllLoop (scrape : String → Except String (List RawJob)) (gen : Nat → String)
    (now : String) : List String → Db → List (String × Nat × Nat) × Db
  | [], db => ([], db)
  | s :: rest, db =>
      let r := runScraper scrape gen now s db
      let entry :=
        match r.1 with
        | .ok v => (s, v)
        | .error _ => (s, (0, 0))
      let tail := runAllLoop scrape gen now rest r.2
      (entry :: tail.1, tail.2)

/-- runAllScrapers (runner.ts lines 199-212). -/
def runAllScrapers (scrape : String → Except String (List RawJob)) (gen : Nat → String)
    (now : String) (db : Db) : List (String × Nat × Nat) × Db :=
  runAllLoop scrape gen now knownSources db

theorem completeScrapeRun_run_sources (now : String) (runId : Nat) (status : String)
    (jobsFound jobsNew : Nat) (err : Option String) (db : Db) :
    ((completeScrapeRun now runId status jobsFound jobsNew err db).runs).map (·.source)
      = db.runs.map (·.source) := by
  unfold completeScrapeRun
  rw [List.map_map]
  apply List.map_congr_left
  intro r _
  simp only [Function.comp_apply]
  cases h : r.id == runId <;> simp [h]

/-- A known-source runScraper appends exactly one run row for that source
(looking only at the source column). -/
theorem runScraper_run_sources (scrape : String → Except String (List RawJob))
    (gen : Nat → String) (now source : String) (db : Db)
    (h : knownSources.contains source = true) :
    ((runScraper scrape gen now source db).2.runs).map (·.source)
      = db.runs.map (·.source) ++ [source] := by
  unfold runScraper
  rw [if_pos h]
  cases scrape source with
  | ok rawJobs =>
      dsimp only
      rw [completeScrapeRun_run_sources]
      unfold startScrapeRun
      simp [List.map_append]
  | error msg =>
      dsimp only
      rw [completeScrapeRun_run_sources]
      unfold startScrapeRun
      simp [List.map_append]

theorem runAllLoop_fst (scrape : String → Except String (List RawJob)) (gen : Nat → String)
    (now : String) :
    ∀ (srcs : List String) (db : Db),
      (runAllLoop scrape gen now srcs db).1.map Prod.fst = srcs := by
  intro srcs
  induction srcs with
  | nil => intro db; rfl
  | cons s rest ih =>
      intro db
      unfold runAllLoop
      dsimp only
      rw [List.map_cons, ih]
      congr 1
      cases (runScraper scrape gen now s db).1 <;> rfl

theorem runAllLoop_lookup_error (scrape : String → Except String (List RawJob))
    (gen : Nat → String) (now : String) :
    ∀ (srcs : List String) (db : Db) (s : String) (msg : String),
      s ∈ srcs → scrape s = .error msg →
      (runAllLoop scrape gen now srcs db).1.lookup s = some (0, 0) := by
  intro srcs
  induction srcs with
  | nil =>
      intro db s msg hmem _
      exact absurd hmem (List.not_mem_nil s)
  | cons t rest ih =>
      intro db s msg hmem herr
      unfold runAllLoop
      dsimp only
      by_cases hst : s = t
      · subst hst
        have hentry : (match (runScraper scrape gen now s db).1 with
            | .ok v => (s, v)
            | .error _ => (s, ((0 : Nat), (0 : Nat)))) = (s, ((0 : Nat), (0 : Nat))) := by
          unfold runScraper
          by_cases hk : knownSources.contains s = true
          · rw [if_pos hk]
            rw [herr]
          · rw [if_neg (by simpa using hk)]
        rw [hentry]
        simp [List.lookup]
      · have hmem' : s ∈ rest := by
          cases hmem with
          | head => exact absurd rfl hst
          | tail _ h => exact h
        have hfst : (match (runScraper scrape gen now t db).1 with
            | .ok v => (t, v)
            | .error _ => (t, ((0 : Nat), (0 : Nat)))).1 = t := by
          cases (runScraper scrape gen now t db).1 <;> rfl
        rw [List.lookup]
        rw [hfst]
        rw [show (s == t) = false from beq_eq_false_iff_ne.mpr hst]
        exact ih _ s msg hmem' herr

theorem runAllLoop_run_sources (scrape : String → Except String (List RawJob))
    (gen : Nat → String) (now : String) :
    ∀ (srcs : List String) (db : Db),
      (∀ s ∈ srcs, knownSources.contains s = true) →
      ((runAllLoop scrape gen now srcs db).2.runs).map (·.source)
        = db.runs.map (·.source) ++ srcs := by
  intro srcs
  induction srcs with
  | nil => intro db _; simp [runAllLoop]
  | cons t rest ih =>
      intro db hall
      unfold runAllLoop
      dsimp only
      rw [ih _ (fun s hs => hall s (by simp [hs]))]
      rw [runScraper_run_sources scrape gen now t db (hall t (by simp))]
      simp

/-- C5: runAll returns one entry per configured source in registry order;
a source whose adapter throws reports zero counts; and every configured
source still gets its ScrapeRun row, so a failure does not abort the
remaining sources. -/
theorem claim_C5_runAll_resilient :
    ∀ (scrape : String → Except String (List RawJob)) (gen : Nat → String) (now : String)
      (db : Db),
      (runAllScrapers scrape gen now db).1.map Prod.fst = knownSources
      ∧ (∀ s ∈ knownSources, ∀ msg, scrape s = .error msg →
          (runAllScrapers scrape gen now db).1.lookup s = some (0, 0))
      ∧ (∀ s ∈ knownSources, ∃ r ∈ (runAllScrapers scrape gen now db).2.runs,
          r.source = s) := by
  intro scrape gen now db
  refine ⟨runAllLoop_fst scrape gen now knownSources db, ?_, ?_⟩
  · intro s hs msg herr
    exact runAllLoop_lookup_error scrape gen now knownSources db s msg hs herr
  · intro s hs
    have hsources := runAllLoop_run_sources scrape gen now knownSources db
      (fun t ht => by simpa using List.elem_iff.mpr ht)
    have hmem : s ∈ ((runAllScrapers scrape gen now db).2.runs).map (·.source) := by
      rw [show (runAllScrapers scrape gen now db).2 = (runAllLoop scrape gen now knownSources db).2 from rfl,
        hsources]
      exact List.mem_append_right _ hs
    obtain ⟨r, hr, hrs⟩ := List.mem_map.mp hmem
    exact ⟨r, hr, hrs⟩

/-- Witness for C5: one adapter throwing synchronously, the rest empty. -/
theorem claim_C5_runAll_resilient_witness :
    (runAllScrapers
        (fun s => if s == "safary" then .error "boom" else .ok [])
        (fun _ => "uuid") "t" ⟨[], [], [], 0⟩).1.lookup "safary" = some (0, 0) :=
  (claim_C5_runAll_resilient
      (fun s => if s == "safary" then .error "boom" else .ok [])
      (fun _ => "uuid") "t" ⟨[], [], [], 0⟩).2.1 "safary" (by decide) "boom" rfl

theorem map_if_id {α : Type} (p : α → Bool) (g : α → α) :
    ∀ l : List α, (∀ r ∈ l, p r = false) →
      l.map (fun r => if p r then g r else r) = l := by
  intro l
  induction l with
  | nil => intro _; rfl
  | cons x xs ih =>
      intro h
      simp only [List.map_cons]
      rw [if_neg (by simp [h x (by simp)]), ih (fun r hr => h r (by simp [hr]))]

/-- C6: a known-source runScraper opens one ScrapeRun row and completes
exactly that row, leaving prior rows untouched: on success it carries
status completed with the found/new counts and no error, and on an
adapter throw it carries status failed with the message while the error
is re-raised; neither path leaves the new row in running. -/
theorem claim_C6_scrape_run_lifecycle :
    ∀ (scrape : String → Except String (List RawJob)) (gen : Nat → String)
      (now source : String) (db : Db),
      knownSources.contains source = true →
      (∀ r ∈ db.runs, r.id < db.nextRunId) →
      ∃ row : ScrapeRunRow,
        (runScraper scrape gen now source db).2.runs = db.runs ++ [row]
        ∧ row.id = db.nextRunId
        ∧ row.source = source
        ∧ row.startedAt = now
        ∧ row.completedAt = some now
        ∧ row.status ≠ "running"
        ∧ ((∃ found neu, (runScraper scrape gen now source db).1 = .ok (found, neu)
              ∧ row.status = "completed" ∧ row.jobsFound = found ∧ row.jobsNew = neu
              ∧ row.error = none)
           ∨ (∃ msg, (runScraper scrape gen now source db).1 = .error msg
              ∧ row.status = "failed" ∧ row.jobsFound = 0 ∧ row.jobsNew = 0
              ∧ row.error = some msg)) := by
  intro scrape gen now source db hk hfresh
  have hfresh' : ∀ r ∈ db.runs, (r.id == db.nextRunId) = false := by
    intro r hr
    exact beq_eq_false_iff_ne.mpr (Nat.ne_of_lt (hfresh r hr))
  unfold runScraper
  rw [if_pos hk]
  cases hscr : scrape source with
  | ok rawJobs =>
      dsimp only [startScrapeRun]
      unfold completeScrapeRun
      dsimp only
      rw [List.map_append, map_if_id _ _ db.runs hfresh']
      simp only [List.map_cons, List.map_nil]
      rw [if_pos (by simp : ((db.nextRunId == db.nextRunId) = true))]
      refine ⟨_, rfl, rfl, rfl, rfl, rfl, show "completed" ≠ "running" by decide, ?_⟩
      exact Or.inl ⟨rawJobs.length, _, rfl, rfl, rfl, rfl, rfl⟩
  | error msg =>
      dsimp only [startScrapeRun]
      unfold completeScrapeRun
      dsimp only
      rw [List.map_append, map_if_id _ _ db.runs hfresh']
      simp only [List.map_cons, List.map_nil]
      rw [if_pos (by simp : ((db.nextRunId == db.nextRunId) = true))]
      refine ⟨_, rfl, rfl, rfl, rfl, rfl, show "failed" ≠ "running" by decide, ?_⟩
      exact Or.inr ⟨msg, rfl, rfl, rfl, rfl, rfl⟩

/-- Witness for C6: a failing adapter on an empty database. -/
theorem claim_C6_scrape_run_lifecycle_witness :
    ∃ row : ScrapeRunRow,
      (runScraper (fun _ => .error "down") (fun _ => "uuid") "t" "jobstash"
          ⟨[], [], [], 0⟩).2.runs = ([] : List ScrapeRunRow) ++ [row]
      ∧ row.id = 0
      ∧ row.source = "jobstash"
      ∧ row.startedAt = "t"
      ∧ row.completedAt = some "t"
      ∧ row.status ≠ "running"
      ∧ ((∃ found neu, (runScraper (fun _ => .error "down") (fun _ => "uuid") "t" "jobstash"
              ⟨[], [], [], 0⟩).1 = .ok (found, neu)
            ∧ row.status = "completed" ∧ row.jobsFound = found ∧ row.jobsNew = neu
            ∧ row.error = none)
         ∨ (∃ msg, (runScraper (fun _ => .error "down") (fun _ => "uuid") "t" "jobstash"
              ⟨[], [], [], 0⟩).1 = .error msg
            ∧ row.status = "failed" ∧ row.jobsFound = 0 ∧ row.jobsNew = 0
            ∧ row.error = some msg)) :=
  claim_C6_scrape_run_lifecycle (fun _ => .error "down") (fun _ => "uuid") "t" "jobstash"
    ⟨[], [], [], 0⟩ (by decide) (fun r hr => absurd hr (List.not_mem_nil r))

/-! The scoring pipeline (src/scorer/scorer.ts).  JavaScript numbers
become rationals so that Math.round is observable; the LLM call of one
attempt is an effect entering the model as a function from attempt index
to either a parsed response or a thrown error (a response without a
numeric overall_score throws before it is returned, so the error side
also covers the malformed-response path of lines 88-92). -/

/-- Math.round: round half toward positive infinity. -/
def jsRound (q : ℚ) : ℤ := ⌊q + 1 / 2⌋

/-- A parsed judge response (scorer.ts lines 20-28). -/
structure JudgeResponse where
  overall_score : ℚ
  relevance_score : ℚ
  experience_match : ℚ
  domain_match : ℚ
  seniority_fit : ℚ
  reasoning : String
deriving Repr, DecidableEq

/-- withRetry (scorer.ts lines 30-45) with the attempt index made
explicit: up to `n` attempts, returning the first success or the last
failure. -/
def withRetry {α : Type} (f : Nat → Except String α) : Nat → Nat → Except String α
  | _, 0 => .error "withRetry: no attempts"
  | attempt, 1 => f attempt
  | attempt, n + 2 =>
      match f attempt with
      | .ok v => .ok v
      | .error _ => withRetry f (attempt + 1) (n + 1)

/-- The summary row shape getUnscoredJobs returns (db/index.ts line 251). -/
structure UnscoredJob where
  id : String
  title : String
  company : Option String
  description : Option String
  seniority : Option String
  category : Option String
  tags : List String
  chains : List String
  rawData : String
deriving Repr, DecidableEq

/-- The SELECT column list of getUnscoredJobs. -/
def toUnscored (r : JobRow) : UnscoredJob :=
  { id := r.id
    title := r.title
    company := r.company
    description := r.description
    seniority := r.seniority
    category := r.category
    tags := r.tags
    chains := r.chains
    rawData := r.rawData }

/-- getUnscoredJobs (db/index.ts lines 251-260): jobs without a score row,
in table order, LIMIT applied. -/
def getUnscoredJobs (limit : Nat) (db : Db) : List UnscoredJob :=
  ((db.jobs.filter fun j => !(db.scores.any fun s => s.jobId == j.id)).take limit).map
    toUnscored

/-- upsertScore (db/index.ts lines 262-283): INSERT OR REPLACE keyed on
job_id — replace the existing row in place or append a new one. -/
def upsertScore (row : ScoreRow) (scores : List ScoreRow) : List ScoreRow :=
  if scores.any fun s => s.jobId == row.jobId then
    scores.map fun s => if s.jobId == row.jobId then row else s
  else
    scores ++ [row]

/-- The model name constant of scorer.ts line 5. -/
def MODEL : String := "gpt-4o-mini"

/-- The score record scoreJob persists (scorer.ts lines 96-105): each of
the five judge numbers passed through Math.round. -/
def scoreRowOf (now jobId : String) (r : JudgeResponse) : ScoreRow :=
  { jobId := jobId
    overallScore := jsRound r.overall_score
    relevanceScore := jsRound r.relevance_score
    experienceMatch := jsRound r.experience_match
    domainMatch := jsRound r.domain_match
    seniorityFit := jsRound r.seniority_fit
    reasoning := r.reasoning
    scoredAt := now
    modelUsed := MODEL }

/-- scoreJob (scorer.ts lines 47-106): the judged response after up to
three attempts is persisted via upsertScore; exhausted retries re-throw
and leave the table untouched. -/
def scoreJob (judge : Nat → Except String JudgeResponse) (now : String) (job : UnscoredJob)
    (scores : List ScoreRow) : Except String Unit × List ScoreRow :=
  match withRetry judge 0 3 with
  | .ok r => (.ok (), upsertScore (scoreRowOf now job.id r) scores)
  | .error e => (.error e, scores)

/-- The per-job loop of scoreUnscored (scorer.ts lines 119-130): a failed
job is logged and skipped, the loop continues, successes are counted. -/
def scoreLoop (judge : String → Nat → Except String JudgeResponse) (now : String) :
    List UnscoredJob → List ScoreRow → Nat × List ScoreRow
  | [], scores => (0, scores)
  | j :: rest, scores =>
      match scoreJob (judge j.id) now j scores with
      | (.ok _, scores1) =>
          let t := scoreLoop judge now rest scores1
          (t.1 + 1, t.2)
      | (.error _, scores1) => scoreLoop judge now rest scores1

/-- scoreUnscored (scorer.ts lines 108-134): fail fast on a missing
credential, otherwise score up to limit unscored jobs. -/
def scoreUnscored (judge : String → Nat → Except String JudgeResponse) (now : String)
    (apiKey : Option String) (limit : Nat) (db : Db) : Except String Nat × Db :=
  match apiKey with
  | none => (.error "OPENAI_API_KEY not set", db)
  | some _ =>
      let r := scoreLoop judge now (getUnscoredJobs limit db) db.scores
      (.ok r.1, { db with scores := r.2 })

/-- Whether the judged call for a job eventually succeeds within the
retry budget. -/
def judgeSucceeds (judge : String → Nat → Except String JudgeResponse) (j : UnscoredJob) :
    Bool :=
  match withRetry (judge j.id) 0 3 with
  | .ok _ => true
  | .error _ => false

theorem scoreJob_ok (judge : Nat → Except String JudgeResponse) (now : String)
    (job : UnscoredJob) (scores : List ScoreRow) (r : JudgeResponse)
    (h : withRetry judge 0 3 = .ok r) :
    scoreJob judge now job scores = (.ok (), upsertScore (scoreRowOf now job.id r) scores) := by
  unfold scoreJob
  rw [h]

theorem scoreJob_error (judge : Nat → Except String JudgeResponse) (now : String)
    (job : UnscoredJob) (scores : List ScoreRow) (e : String)
    (h : withRetry judge 0 3 = .error e) :
    scoreJob judge now job scores = (.error e, scores) := by
  unfold scoreJob
  rw [h]

theorem upsertScore_filter_other (row : ScoreRow) (scores : List ScoreRow) (x : String)
    (h : row.jobId ≠ x) :
    (upsertScore row scores).filter (fun s => s.jobId == x)
      = scores.filter (fun s => s.jobId == x) := by
  unfold upsertScore
  by_cases hany : (scores.any fun s => s.jobId == row.jobId) = true
  · rw [if_pos hany, List.filter_map]
    have hcongr : scores.filter
        ((fun s => s.jobId == x) ∘ fun s => if s.jobId == row.jobId then row else s)
        = scores.filter (fun s => s.jobId == x) := by
      apply List.filter_congr
      intro s _
      simp only [Function.comp_apply]
      cases hb : s.jobId == row.jobId with
      | false => rw [if_neg (by simp [hb])]
      | true =>
          rw [if_pos (by simp [hb])]
          have hs : s.jobId = row.jobId := by simpa using hb
          rw [show (row.jobId == x) = false from beq_eq_false_iff_ne.mpr h,
            show (s.jobId == x) = false from beq_eq_false_iff_ne.mpr (hs ▸ h)]
    rw [hcongr]
    have hid : ∀ s ∈ scores.filter (fun s => s.jobId == x),
        (if s.jobId == row.jobId then row else s) = s := by
      intro s hs
      have hsx : s.jobId = x := by simpa using List.of_mem_filter hs
      rw [if_neg]
      simp only [hsx]
      exact fun hc => h (beq_iff_eq.mp hc).symm
    rw [List.map_congr_left hid]
    simp
  · rw [if_neg hany, List.filter_append]
    have : List.filter (fun s => s.jobId == x) [row] = [] := by
      simp [List.filter, beq_eq_false_iff_ne.mpr h]
    rw [this, List.append_nil]

theorem upsertScore_filter_self (row : ScoreRow) (scores : List ScoreRow)
    (h : scores.filter (fun s => s.jobId == row.jobId) = []) :
    (upsertScore row scores).filter (fun s => s.jobId == row.jobId) = [row] := by
  unfold upsertScore
  have hany : (scores.any fun s => s.jobId == row.jobId) = false := by
    rw [List.any_eq_false]
    intro s hs
    intro hc
    have : s ∈ scores.filter (fun s => s.jobId == row.jobId) := List.mem_filter.mpr ⟨hs, hc⟩
    rw [h] at this
    exact absurd this (List.not_mem_nil s)
  rw [if_neg (by simp [hany]), List.filter_append, h, List.nil_append]
  simp [List.filter]

theorem scoreLoop_count (judge : String → Nat → Except String JudgeResponse) (now : String) :
    ∀ (js : List UnscoredJob) (scores : List ScoreRow),
      (scoreLoop judge now js scores).1 = (js.filter (judgeSucceeds judge)).length := by
  intro js
  induction js with
  | nil => intro scores; rfl
  | cons j rest ih =>
      intro scores
      unfold scoreLoop
      cases hw : withRetry (judge j.id) 0 3 with
      | ok r =>
          rw [scoreJob_ok _ _ _ _ r hw]
          dsimp only
          rw [ih]
          have hs : judgeSucceeds judge j = true := by
            unfold judgeSucceeds
            rw [hw]
          rw [List.filter_cons, if_pos (by simp [hs])]
          rfl
      | error e =>
          rw [scoreJob_error _ _ _ _ e hw]
          dsimp only
          rw [ih]
          have hs : judgeSucceeds judge j = false := by
            unfold judgeSucceeds
            rw [hw]
          rw [List.filter_cons, if_neg (by simp [hs])]

theorem scoreLoop_filter_untouched (judge : String → Nat → Except String JudgeResponse)
    (now : String) (x : String) :
    ∀ (js : List UnscoredJob) (scores : List ScoreRow),
      (∀ j ∈ js, j.id ≠ x) →
      ((scoreLoop judge now js scores).2.filter (fun s => s.jobId == x))
        = scores.filter (fun s => s.jobId == x) := by
  intro js
  induction js with
  | nil => intro scores _; rfl
  | cons j rest ih =>
      intro scores hne
      unfold scoreLoop
      cases hw : withRetry (judge j.id) 0 3 with
      | ok r =>
          rw [scoreJob_ok _ _ _ _ r hw]
          dsimp only
          rw [ih _ (fun t ht => hne t (by simp [ht]))]
          exact upsertScore_filter_other _ scores x (hne j (by simp))
      | error e =>
          rw [scoreJob_error _ _ _ _ e hw]
          dsimp only
          exact ih _ (fun t ht => hne t (by simp [ht]))

theorem scoreLoop_filter_ok (judge : String → Nat → Except String JudgeResponse)
    (now : String) :
    ∀ (js : List UnscoredJob) (scores : List ScoreRow) (j : UnscoredJob) (r : JudgeResponse),
      j ∈ js → (js.map (·.id)).Nodup →
      withRetry (judge j.id) 0 3 = .ok r →
      scores.filter (fun s => s.jobId == j.id) = [] →
      ((scoreLoop judge now js scores).2.filter (fun s => s.jobId == j.id))
        = [scoreRowOf now j.id r] := by
  intro js
  induction js with
  | nil =>
      intro scores j r hmem _ _ _
      exact absurd hmem (List.not_mem_nil j)
  | cons t rest ih =>
      intro scores j r hmem hnd hok hinit
      have hnd' : (rest.map (·.id)).Nodup := (List.nodup_cons.mp hnd).2
      have htid : t.id ∉ rest.map (·.id) := (List.nodup_cons.mp hnd).1
      rcases List.mem_cons.mp hmem with rfl | hmem'
      · unfold scoreLoop
        rw [scoreJob_ok _ _ _ _ r hok]
        dsimp only
        rw [scoreLoop_filter_untouched judge now j.id rest _ ?hrest]
        case hrest =>
          intro u hu hcon
          exact htid (hcon ▸ List.mem_map_of_mem (·.id) hu)
        exact upsertScore_filter_self (scoreRowOf now j.id r) scores hinit
      · have hjt : j.id ≠ t.id := by
          intro hcon
          exact htid (hcon ▸ List.mem_map_of_mem (·.id) hmem')
        unfold scoreLoop
        cases hw : withRetry (judge t.id) 0 3 with
        | ok r' =>
            rw [scoreJob_ok _ _ _ _ r' hw]
            dsimp only
            apply ih _ j r hmem' hnd' hok
            rw [upsertScore_filter_other _ scores j.id (fun hc => hjt hc.symm)]
            exact hinit
        | error e =>
            rw [scoreJob_error _ _ _ _ e hw]
            dsimp only
            exact ih _ j r hmem' hnd' hok hinit

theorem scoreLoop_filter_err (judge : String → Nat → Except String JudgeResponse)
    (now : String) :
    ∀ (js : List UnscoredJob) (scores : List ScoreRow) (j : UnscoredJob) (e : String),
      j ∈ js → (js.map (·.id)).Nodup →
      withRetry (judge j.id) 0 3 = .error e →
      scores.filter (fun s => s.jobId == j.id) = [] →
      ((scoreLoop judge now js scores).2.filter (fun s => s.jobId == j.id)) = [] := by
  intro js
  induction js with
  | nil =>
      intro scores j e hmem _ _ _
      exact absurd hmem (List.not_mem_nil j)
  | cons t rest ih =>
      intro scores j e hmem hnd herr hinit
      have hnd' : (rest.map (·.id)).Nodup := (List.nodup_cons.mp hnd).2
      have htid : t.id ∉ rest.map (·.id) := (List.nodup_cons.mp hnd).1
      rcases List.mem_cons.mp hmem with rfl | hmem'
      · unfold scoreLoop
        rw [scoreJob_error _ _ _ _ e herr]
        dsimp only
        rw [scoreLoop_filter_untouched judge now j.id rest _ ?hrest2]
        case hrest2 =>
          intro u hu hcon
          exact htid (hcon ▸ List.mem_map_of_mem (·.id) hu)
        exact hinit
      · have hjt : j.id ≠ t.id := by
          intro hcon
          exact htid (hcon ▸ List.mem_map_of_mem (·.id) hmem')
        unfold scoreLoop
        cases hw : withRetry (judge t.id) 0 3 with
        | ok r' =>
            rw [scoreJob_ok _ _ _ _ r' hw]
            dsimp only
            apply ih _ j e hmem' hnd' herr
            rw [upsertScore_filter_other _ scores j.id (fun hc => hjt hc.symm)]
            exact hinit
        | error e' =>
            rw [scoreJob_error _ _ _ _ e' hw]
            dsimp only
            exact ih _ j e hmem' hnd' herr hinit

theorem getUnscoredJobs_no_score (limit : Nat) (db : Db) (j : UnscoredJob)
    (h : j ∈ getUnscoredJobs limit db) :
    db.scores.filter (fun s => s.jobId == j.id) = [] := by
  unfold getUnscoredJobs at h
  obtain ⟨row, hrow, rfl⟩ := List.mem_map.mp h
  have hrow2 : row ∈ db.jobs.filter (fun jr => !(db.scores.any fun s => s.jobId == jr.id)) :=
    List.mem_of_mem_take hrow
  have hanyf : (db.scores.any fun s => s.jobId == row.id) = false := by
    simpa using (List.of_mem_filter hrow2)
  rw [List.filter_eq_nil_iff]
  intro s hs
  simpa using List.any_eq_false.mp hanyf s hs

theorem getUnscoredJobs_length (limit : Nat) (db : Db) :
    (getUnscoredJobs limit db).length ≤ limit := by
  unfold getUnscoredJobs
  rw [List.length_map]
  exact List.length_take_le _ _

theorem getUnscoredJobs_nodup (limit : Nat) (db : Db)
    (h : (db.jobs.map (·.id)).Nodup) :
    ((getUnscoredJobs limit db).map (·.id)).Nodup := by
  unfold getUnscoredJobs
  rw [List.map_map]
  have hsub : ((db.jobs.filter fun jr =>
        !(db.scores.any fun s => s.jobId == jr.id)).take limit).Sublist db.jobs :=
    (List.take_sublist _ _).trans (List.filter_sublist _)
  exact List.Nodup.sublist (hsub.map _) h

/-- C7: with a credential present, scoreUnscored scores exactly the
batch members whose judge call succeeds within the retry budget — never
more than limit — and a job whose retries are exhausted gets no Score
row while every other job in the batch is still scored. -/
theorem claim_C7_scoreUnscored :
    ∀ (judge : String → Nat → Except String JudgeResponse) (now key : String) (limit : Nat)
      (db : Db),
      (db.jobs.map (·.id)).Nodup →
      (scoreUnscored judge now (some key) limit db).1
          = .ok ((getUnscoredJobs limit db).filter (judgeSucceeds judge)).length
      ∧ ((getUnscoredJobs limit db).filter (judgeSucceeds judge)).length ≤ limit
      ∧ (∀ j ∈ getUnscoredJobs limit db, ∀ e, withRetry (judge j.id) 0 3 = .error e →
          ((scoreUnscored judge now (some key) limit db).2.scores.filter
            (fun s => s.jobId == j.id)) = [])
      ∧ (∀ j ∈ getUnscoredJobs limit db, ∀ r, withRetry (judge j.id) 0 3 = .ok r →
          ((scoreUnscored judge now (some key) limit db).2.scores.filter
            (fun s => s.jobId == j.id)) = [scoreRowOf now j.id r]) := by
  intro judge now key limit db hnd
  have hndu := getUnscoredJobs_nodup limit db hnd
  refine ⟨?_, ?_, ?_, ?_⟩
  · unfold scoreUnscored
    dsimp only
    rw [scoreLoop_count]
  · exact le_trans (List.length_filter_le _ _) (getUnscoredJobs_length limit db)
  · intro j hj e he
    unfold scoreUnscored
    dsimp only
    exact scoreLoop_filter_err judge now _ db.scores j e hj hndu he
      (getUnscoredJobs_no_score limit db j hj)
  · intro j hj r hr
    unfold scoreUnscored
    dsimp only
    exact scoreLoop_filter_ok judge now _ db.scores j r hj hndu hr
      (getUnscoredJobs_no_score limit db j hj)

/-- Witness for C7: one unscored job whose judge always throws. -/
theorem claim_C7_scoreUnscored_witness :
    (scoreUnscored (fun _ _ => .error "x") "t" (some "k") 5
        ⟨[newRowOfInput "a" "t0" { source := "s", sourceId := "1", title := "T" }],
          [], [], 0⟩).1
      = .ok ((getUnscoredJobs 5
          ⟨[newRowOfInput "a" "t0" { source := "s", sourceId := "1", title := "T" }],
            [], [], 0⟩).filter (judgeSucceeds (fun _ _ => .error "x"))).length :=
  (claim_C7_scoreUnscored (fun _ _ => .error "x") "t" "k" 5
    ⟨[newRowOfInput "a" "t0" { source := "s", sourceId := "1", title := "T" }],
      [], [], 0⟩ (by decide)).1

/-- C8: an accepted judge response is persisted as the five judge numbers
rounded to nearest integer — the overall score is the judge value, not a
local recomputation of the weighted combination, as the demonstration
response with an overall score far from its weighted combination shows. -/
theorem claim_C8_judge_scores_persisted :
    (∀ (judge : Nat → Except String JudgeResponse) (now : String) (job : UnscoredJob)
      (scores : List ScoreRow) (r : JudgeResponse),
      withRetry judge 0 3 = .ok r →
      scoreJob judge now job scores
        = (.ok (), upsertScore
            { jobId := job.id
              overallScore := jsRound r.overall_score
              relevanceScore := jsRound r.relevance_score
              experienceMatch := jsRound r.experience_match
              domainMatch := jsRound r.domain_match
              seniorityFit := jsRound r.seniority_fit
              reasoning := r.reasoning
              scoredAt := now
              modelUsed := "gpt-4o-mini" } scores))
    ∧ jsRound (20 : ℚ)
        ≠ jsRound ((100 : ℚ) * (35 / 100) + (100 : ℚ) * (25 / 100)
            + (100 : ℚ) * (25 / 100) + (100 : ℚ) * (15 / 100))
    ∧ (scoreJob (fun _ => .ok
          { overall_score := 20
            relevance_score := 100
            experience_match := 100
            domain_match := 100
            seniority_fit := 100
            reasoning := "off" }) "t"
          { id := "j1", title := "T", company := none, description := none,
            seniority := none, category := none, tags := [], chains := [],
            rawData := "" } []).2
        = [{ jobId := "j1"
             overallScore := 20
             relevanceScore := 100
             experienceMatch := 100
             domainMatch := 100
             seniorityFit := 100
             reasoning := "off"
             scoredAt := "t"
             modelUsed := "gpt-4o-mini" }] := by
  refine ⟨?_, by norm_num [jsRound], ?_⟩
  · intro judge now job scores r h
    unfold scoreJob
    rw [h]
    rfl
  · show ([scoreRowOf "t" "j1"
        { overall_score := 20
          relevance_score := 100
          experience_match := 100
          domain_match := 100
          seniority_fit := 100
          reasoning := "off" }] : List ScoreRow) = _
    simp only [scoreRowOf, MODEL]
    norm_num [jsRound]

/-- Witness for C8: a single-attempt successful judge. -/
theorem claim_C8_judge_scores_persisted_witness :
    scoreJob
        (fun _ => .ok
          { overall_score := 61 / 2
            relevance_score := 10
            experience_match := 20
            domain_match := 30
            seniority_fit := 40
            reasoning := "w" }) "t"
        { id := "j2", title := "T", company := none, description := none,
          seniority := none, category := none, tags := [], chains := [],
          rawData := "" } []
      = (.ok (), upsertScore
          { jobId := "j2"
            overallScore := jsRound (61 / 2 : ℚ)
            relevanceScore := jsRound (10 : ℚ)
            experienceMatch := jsRound (20 : ℚ)
            domainMatch := jsRound (30 : ℚ)
            seniorityFit := jsRound (40 : ℚ)
            reasoning := "w"
            scoredAt := "t"
            modelUsed := "gpt-4o-mini" } []) :=
  claim_C8_judge_scores_persisted.1
    (fun _ => .ok
      { overall_score := 61 / 2
        relevance_score := 10
        experience_match := 20
        domain_match := 30
        seniority_fit := 40
        reasoning := "w" }) "t"
    { id := "j2", title := "T", company := none, description := none,
      seniority := none, category := none, tags := [], chains := [],
      rawData := "" } []
    { overall_score := 61 / 2
      relevance_score := 10
      experience_match := 20
      domain_match := 30
      seniority_fit := 40
      reasoning := "w" } rfl

/-! The JobStash adapter (src/scrapers/jobstash.ts).  The claims concern
the per-page filtering loop over fetched jobs (lines 105-143); paging and
HTTP are I/O outside the loop.  Date rendering is abstracted into an
uninterpreted injective encoding, and the opaque raw payload is dropped
from the record. -/

def parseIntDigits (cs : List Char) : Option Nat :=
  let ds := cs.takeWhile Char.isDigit
  if ds.isEmpty then none
  else some (ds.foldl (fun a c => a * 10 + (c.toNat - 48)) 0)

/-- parseInt(s, 10): skip leading whitespace, optional sign, then the
longest digit prefix; NaN (no digits) becomes none. -/
def parseIntJS (s : String) : Option Int :=
  match s.data.dropWhile Char.isWhitespace with
  | '-' :: rest => (parseIntDigits rest).map fun n => -(n : Int)
  | '+' :: rest => (parseIntDigits rest).map fun n => (n : Int)
  | cs => (parseIntDigits cs).map fun n => (n : Int)

/-- A fetched JobStash job (jobstash.ts lines 45-66), with the nested
organization name and tag names flattened. -/
structure JobStashJob where
  shortUUID : Option String := none
  id : Option String := none
  title : String
  url : Option String := none
  organizationName : Option String := none
  summary : Option String := none
  description : Option String := none
  location : Option String := none
  locationType : Option String := none
  seniority : Option String := none
  classification : Option String := none
  minimumSalary : Option Int := none
  maximumSalary : Option Int := none
  tags : List String := []
  chains : List String := []
  timestamp : Option Int := none
deriving Repr, DecidableEq

/-- Seniority 1 = intern/junior, excluded below this threshold. -/
def MIN_SENIORITY : Int := 2

/-- `job.seniority ? parseInt(job.seniority, 10) : null` — the empty
string is falsy and yields null. -/
def jobStashSeniorityCode (j : JobStashJob) : Option Int :=
  match j.seniority with
  | none => none
  | some s => if s == "" then none else parseIntJS s

/-- The skip test of lines 107-111: `seniority != null && seniority <
MIN_SENIORITY`; a NaN parse compares false and is not skipped. -/
def jobStashSkipSeniority (j : JobStashJob) : Bool :=
  match jobStashSeniorityCode j with
  | some n => n < MIN_SENIORITY
  | none => false

/-- JavaScript `a || b` on optional strings (empty string falsy). -/
def truthyOr (a b : Option String) : Option String :=
  match a with
  | some s => if s == "" then b else some s
  | none => b

/-- `job.shortUUID || job.id || template-of-title-and-org` (line 125);
a missing organization renders as the string undefined inside the
template literal. -/
def jobStashSourceId (j : JobStashJob) : String :=
  match truthyOr j.shortUUID j.id with
  | some s =>
      if s == "" then j.title ++ "-" ++ j.organizationName.getD "undefined" else s
  | none => j.title ++ "-" ++ j.organizationName.getD "undefined"

/-- Date#toISOString abstracted to an injective encoding. -/
def isoOfTimestamp (t : Int) : String := "iso:" ++ toString t

/-- The RawJob a kept JobStash job maps to (lines 126-142). -/
def jobStashToRaw (j : JobStashJob) : RawJob :=
  { sourceId := jobStashSourceId j
    url := j.url
    title := j.title
    company := j.organizationName
    description := truthyOr j.summary j.description
    location := j.location
    locationType := j.locationType
    seniority := j.seniority
    category := j.classification
    salaryMin := j.minimumSalary
    salaryMax := j.maximumSalary
    tags := j.tags
    chains := j.chains
    postedAt :=
      match j.timestamp with
      | some t => if t == 0 then none else some (isoOfTimestamp t)
      | none => none
    rawData := "" }

/-- The filtering loop over one fetched page (lines 105-143): the
seniority tier first, then the shared title filter, then the shared
location filter, each feeding its own skip counter, and survivors mapped
to RawJob in order.  The result carries (kept jobs, skippedSeniority,
skippedTitle, skippedLocation). -/
def jobStashProcess : List JobStashJob → List RawJob × Nat × Nat × Nat
  | [] => ([], 0, 0, 0)
  | j :: rest =>
      if jobStashSkipSeniority j then
        let t := jobStashProcess rest
        (t.1, t.2.1 + 1, t.2.2.1, t.2.2.2)
      else if isExcludedTitle j.title then
        let t := jobStashProcess rest
        (t.1, t.2.1, t.2.2.1 + 1, t.2.2.2)
      else if !(isLocationUSOrRemote j.location j.locationType) then
        let t := jobStashProcess rest
        (t.1, t.2.1, t.2.2.1, t.2.2.2 + 1)
      else
        let t := jobStashProcess rest
        (jobStashToRaw j :: t.1, t.2.1, t.2.2.1, t.2.2.2)

/-- C9: in the JobStash adapter the seniority tier applies before the
shared title and location filters and feeds its own counter — a job with
a parsed code below 2 is counted there even when the other filters would
also reject it — and in the five-job scenario with one code-1 job,
exactly that job is excluded, through the seniority counter alone. -/
theorem claim_C9_jobstash_seniority :
    (∀ js : List JobStashJob,
      (jobStashProcess js).2.1 = (js.filter jobStashSkipSeniority).length
      ∧ (jobStashProcess js).2.2.1
          = (js.filter fun j =>
              !jobStashSkipSeniority j && isExcludedTitle j.title).length
      ∧ (jobStashProcess js).2.2.2
          = (js.filter fun j =>
              !jobStashSkipSeniority j && !isExcludedTitle j.title
                && !isLocationUSOrRemote j.location j.locationType).length
      ∧ (jobStashProcess js).1
          = (js.filter fun j =>
              !jobStashSkipSeniority j && !isExcludedTitle j.title
                && isLocationUSOrRemote j.location j.locationType).map jobStashToRaw)
    ∧ jobStashProcess
        [{ shortUUID := some "a", title := "Product Lead", location := some "Remote",
           locationType := some "REMOTE", seniority := some "3" },
         { shortUUID := some "b", title := "BD Manager", location := some "New York",
           seniority := some "1" },
         { shortUUID := some "c", title := "Growth Lead", location := some "Remote",
           seniority := some "2" },
         { shortUUID := some "d", title := "Partnerships Manager",
           location := some "Austin", seniority := some "4" },
         { shortUUID := some "e", title := "Product Manager", location := none,
           seniority := none }]
      = ([jobStashToRaw
            { shortUUID := some "a", title := "Product Lead", location := some "Remote",
              locationType := some "REMOTE", seniority := some "3" },
          jobStashToRaw
            { shortUUID := some "c", title := "Growth Lead", location := some "Remote",
              seniority := some "2" },
          jobStashToRaw
            { shortUUID := some "d", title := "Partnerships Manager",
              location := some "Austin", seniority := some "4" },
          jobStashToRaw
            { shortUUID := some "e", title := "Product Manager", location := none,
              seniority := none }], 1, 0, 0) := by
  refine ⟨?_, by decide⟩
  intro js
  induction js with
  | nil => exact ⟨rfl, rfl, rfl, rfl⟩
  | cons j rest ih =>
      obtain ⟨ih1, ih2, ih3, ih4⟩ := ih
      unfold jobStashProcess
      cases hs : jobStashSkipSeniority j with
      | true =>
          rw [if_pos rfl]
          dsimp only
          refine ⟨?_, ?_, ?_, ?_⟩
          · rw [ih1, List.filter_cons, if_pos (by simp [hs])]
            rfl
          · rw [ih2, List.filter_cons, if_neg (by simp [hs])]
          · rw [ih3, List.filter_cons, if_neg (by simp [hs])]
          · rw [ih4, List.filter_cons, if_neg (by simp [hs])]
      | false =>
          rw [if_neg (by simp)]
          cases ht : isExcludedTitle j.title with
          | true =>
              rw [if_pos rfl]
              dsimp only
              refine ⟨?_, ?_, ?_, ?_⟩
              · rw [ih1, List.filter_cons, if_neg (by simp [hs])]
              · rw [ih2, List.filter_cons, if_pos (by simp [hs, ht])]
                rfl
              · rw [ih3, List.filter_cons, if_neg (by simp [hs, ht])]
              · rw [ih4, List.filter_cons, if_neg (by simp [hs, ht])]
          | false =>
              cases hl : isLocationUSOrRemote j.location j.locationType with
              | false =>
                  rw [if_neg (by simp), if_pos (by simp)]
                  dsimp only
                  refine ⟨?_, ?_, ?_, ?_⟩
                  · rw [ih1, List.filter_cons, if_neg (by simp [hs])]
                  · rw [ih2, List.filter_cons, if_neg (by simp [ht])]
                  · rw [ih3, List.filter_cons, if_pos (by simp [hs, ht, hl])]
                    rfl
                  · rw [ih4, List.filter_cons, if_neg (by simp [hl])]
              | true =>
                  rw [if_neg (by simp), if_neg (by simp)]
                  dsimp only
                  refine ⟨?_, ?_, ?_, ?_⟩
                  · rw [ih1, List.filter_cons, if_neg (by simp [hs])]
                  · rw [ih2, List.filter_cons, if_neg (by simp [ht])]
                  · rw [ih3, List.filter_cons, if_neg (by simp [hl])]
                  · rw [ih4, List.filter_cons, if_pos (by simp [hs, ht, hl])]
                    rfl

end JobSeeker
